import Mathlib

/-!
The `crictl cp` command: container-relative path resolution.

A shallow embedding of `cmd/crictl/copy.go`.  Go strings are lists of
characters, an `error` is the text of its message, and a Go result pair
`(string, error)` is a pair `Str × Option Err`.  Every function threads the
trace of the effects performed so far (remote calls, file reads, log lines)
and ends either by returning or by a run-time panic (index out of range).
-/

namespace Crictl

/-- A Go string, as the sequence of its characters. -/
abbrev Str := List Char

/-- An `error` value, identified with the text of its message. -/
abbrev Err := Str

/-- The fields of `pb.Container` that the copy command reads: the identifier
and `Metadata.Name`. -/
structure Container where
  Id : Str
  Name : Str
  deriving DecidableEq, Repr

/-- An argument of a log call. -/
inductive LogArg where
  | str (s : Str)
  | containers (cs : List Container)
  deriving DecidableEq, Repr

/-- An effect of the command that is visible outside the process. -/
inductive Event where
  | rpcListContainers
  | rpcVersion
  | readFile (name : Str)
  | exec (argv : List Str)
  | getRuntimeClient
  | closeConnection
  | debugf (format : Str) (args : List LogArg)
  | infof (format : Str) (args : List LogArg)
  deriving DecidableEq, Repr

/-- Whether the event is a call to the remote runtime service. -/
def Event.isRemoteCall : Event → Bool
  | .rpcListContainers => true
  | .rpcVersion => true
  | _ => false

/-- Whether the event is a read of the mount table. -/
def Event.isMountRead : Event → Bool
  | .readFile name => name == "/proc/mounts".toList
  | _ => false

/-- Whether the event is a `ListContainers` query. -/
def Event.isListContainers : Event → Bool
  | .rpcListContainers => true
  | _ => false

/-- Whether the event is a run of the host copy command. -/
def Event.isExec : Event → Bool
  | .exec _ => true
  | _ => false

/-- The number of `ListContainers` queries in a trace. -/
def listQueries (t : List Event) : Nat := t.countP Event.isListContainers

/-- The number of reads of the mount table in a trace. -/
def mountReads (t : List Event) : Nat := t.countP Event.isMountRead

/-- The number of runs of the host copy command in a trace. -/
def copyRuns (t : List Event) : Nat := t.countP Event.isExec

/-- How a Go function call ends: it returns a value, or it panics. -/
inductive Outcome (α : Type) where
  | ret (v : α)
  | panic
  deriving DecidableEq, Repr

/-- The end of a call together with the trace of effects up to that point. -/
structure Run (α : Type) where
  out : Outcome α
  trace : List Event
  deriving DecidableEq, Repr

/-- What the command runs against.  Each reply may depend on the effects
performed before the call.  `matchesRegex pattern name` is the
regular-expression matcher of the container filter, which is declared outside
`copy.go` and is taken as a parameter.  `getRuntimeClient` is the error, if
any, of obtaining the client and its connection, `RunCommand argv` the error,
if any, of running the command `argv`, and `programName` is `os.Args[0]`. -/
structure Host where
  matchesRegex : Str → Str → Bool
  ListContainers : List Event → Except Err (List Container)
  Version : List Event → Except Err Str
  ReadFile : Str → List Event → Except Err Str
  getRuntimeClient : List Event → Option Err
  RunCommand : List Str → List Event → Option Err
  programName : Str

/-! ## The functions of package `strings` that the command calls -/

/-- Go `strings.Contains s substr`. -/
def Contains : Str → Str → Bool
  | [], substr => substr.isPrefixOf []
  | c :: cs, substr => substr.isPrefixOf (c :: cs) || Contains cs substr

/-- Go `strings.Split s sep` for a separator of one character, the only kind
the command passes: the pieces of `s` between the occurrences of `sep`. -/
def Split : Str → Char → List Str
  | [], _ => [[]]
  | c :: cs, sep =>
    if c = sep then [] :: Split cs sep
    else
      match Split cs sep with
      | [] => [[c]]
      | p :: ps => (c :: p) :: ps

/-! ## The command -/

/-- Modelled from the spec: `getContainersList` is declared outside `copy.go`;
with only `nameRegexp` set it keeps the containers whose name matches the
pattern as a regular expression. -/
def getContainersList (matchesRegex : Str → Str → Bool) (containers : List Container)
    (nameRegexp : Str) : List Container :=
  containers.filter (fun c => matchesRegex nameRegexp c.Name)

/-- `getContainerId`: list the containers, filter them by name, and return the
identifier of the first one unless more than one is left. -/
def getContainerId (h : Host) (containerName : Str) (t : List Event) :
    Run (Str × Option Err) :=
  let t1 := t ++ [Event.rpcListContainers]
  match h.ListContainers t with
  | .error err => ⟨.ret ([], some err), t1⟩
  | .ok containers =>
    let containerList := getContainersList h.matchesRegex containers containerName
    let t2 := t1 ++ [Event.debugf "ListContainerResponse: %v".toList [.containers containerList]]
    if containerList.length > 1 then
      ⟨.ret ([], some ("could not convert container name \x27".toList ++ containerName
          ++ "\x27 to id".toList)),
        t2 ++ [Event.infof "containers %v".toList [.containers containerList]]⟩
    else
      match containerList[0]? with
      | some c => ⟨.ret (c.Id, none), t2⟩
      | none => ⟨.panic, t2⟩

/-- The condition of the mount-table loop of `findRootFs` on one line. -/
def lineQualifies (containerId line : Str) : Bool :=
  Contains line containerId && Contains line "rootfs".toList

/-- The `for _, line := range mounts` loop of `findRootFs`: the line at which
the loop returns, if there is one. -/
def rootFsLine (containerId : Str) : List Str → Option Str
  | [] => none
  | line :: rest =>
    if lineQualifies containerId line then some line else rootFsLine containerId rest

/-- `findRootFs`: resolve the name to an identifier, read `/proc/mounts` and
return the second space-separated piece of the first line that contains both
the identifier and `rootfs`. -/
def findRootFs (h : Host) (containerName : Str) (t : List Event) :
    Run (Str × Option Err) :=
  let r := getContainerId h containerName t
  match r.out with
  | .panic => ⟨.panic, r.trace⟩
  | .ret (_, some err) => ⟨.ret ([], some err), r.trace⟩
  | .ret (containerId, none) =>
    let t2 := r.trace ++ [Event.readFile "/proc/mounts".toList]
    match h.ReadFile "/proc/mounts".toList r.trace with
    | .error err => ⟨.ret ([], some err), t2⟩
    | .ok data =>
      match rootFsLine containerId (Split data '\n') with
      | some line =>
        match (Split line ' ')[1]? with
        | some target => ⟨.ret (target, none), t2⟩
        | none => ⟨.panic, t2⟩
      | none =>
        ⟨.ret ([], some ("could not find the rootfs for container ".toList ++ containerName
          ++ "(".toList ++ containerId ++ ")".toList)), t2⟩

/-- `resolvePath`: a path with a colon is `name:fragment` and resolves to the
container's root followed by the fragment; any other path is returned as is. -/
def resolvePath (h : Host) (path : Str) (t : List Event) : Run (Str × Option Err) :=
  let t1 := t ++ [Event.debugf "Resolving path %v".toList [.str path]]
  if Contains path ":".toList then
    match (Split path ':')[0]? with
    | none => ⟨.panic, t1⟩
    | some cName =>
      match (Split path ':')[1]? with
      | none => ⟨.panic, t1⟩
      | some cPath =>
        let r := findRootFs h cName t1
        match r.out with
        | .panic => ⟨.panic, r.trace⟩
        | .ret (_, some err) => ⟨.ret ([], some err), r.trace⟩
        | .ret (resPath, none) => ⟨.ret (resPath ++ cPath, none), r.trace⟩
  else ⟨.ret (path, none), t1⟩

/-- `validateRuntime`: ask the runtime for its version and accept only the
runtime named `containerd`. -/
def validateRuntime (h : Host) (t : List Event) : Run (Option Err) :=
  let t1 := t ++ [Event.rpcVersion]
  match h.Version t with
  | .error err => ⟨.ret (some err), t1⟩
  | .ok runtimeName =>
    if runtimeName ≠ "containerd".toList then
      ⟨.ret (some ("copy not supported for runtime \x27".toList ++ runtimeName
        ++ "\x27".toList)), t1⟩
    else ⟨.ret none, t1⟩

/-- `copyFile`: format the command line `cp src dst`, split it at every space
and run the pieces as a command. -/
def copyFile (h : Host) (src dst : Str) (t : List Event) : Run (Option Err) :=
  let cmd := "cp ".toList ++ src ++ " ".toList ++ dst
  let t1 := t ++ [Event.debugf "copy command: %v".toList [.str cmd]]
  let cmdSplits := Split cmd ' '
  match cmdSplits[0]? with
  | none => ⟨.panic, t1⟩
  | some name => ⟨.ret (h.RunCommand (name :: cmdSplits.drop 1) t1),
      t1 ++ [Event.exec (name :: cmdSplits.drop 1)]⟩

/-- `copy`: resolve the source, then the destination, then copy the file. -/
def copy (h : Host) (src dst : Str) (t : List Event) : Run (Option Err) :=
  let r1 := resolvePath h src t
  match r1.out with
  | .panic => ⟨.panic, r1.trace⟩
  | .ret (_, some err) => ⟨.ret (some err), r1.trace⟩
  | .ret (srcRes, none) =>
    let r2 := resolvePath h dst r1.trace
    match r2.out with
    | .panic => ⟨.panic, r2.trace⟩
    | .ret (_, some err) => ⟨.ret (some err), r2.trace⟩
    | .ret (dstRes, none) =>
      copyFile h srcRes dstRes
        (r2.trace ++ [Event.debugf "Copying %s to %s\n".toList [.str srcRes, .str dstRes]])

/-- `Copy`: check the argument count, obtain the client, check the runtime and
copy; the connection is closed when the function is left after it was obtained. -/
def Copy (h : Host) (args : List Str) (t : List Event) : Run (Option Err) :=
  if args.length ≠ 2 then
    ⟨.ret (some ("usage: ".toList ++ h.programName ++ " <src> <dst>".toList)), t⟩
  else
    match args[0]? with
    | none => ⟨.panic, t⟩
    | some src =>
      match args[1]? with
      | none => ⟨.panic, t⟩
      | some dst =>
        match h.getRuntimeClient t with
        | some err => ⟨.ret (some err), t ++ [Event.getRuntimeClient]⟩
        | none =>
          let g := validateRuntime h (t ++ [Event.getRuntimeClient])
          match g.out with
          | .panic => ⟨.panic, g.trace ++ [Event.closeConnection]⟩
          | .ret (some err) => ⟨.ret (some err), g.trace ++ [Event.closeConnection]⟩
          | .ret none =>
            let r := copy h src dst g.trace
            ⟨r.out, r.trace ++ [Event.closeConnection]⟩

/-- The run of the runtime guard inside `Copy`, after the client is obtained. -/
def guardRun (h : Host) (t : List Event) : Run (Option Err) :=
  validateRuntime h (t ++ [Event.getRuntimeClient])

/-- The run of the source resolution inside `Copy`, after the guard. -/
def sourceRun (h : Host) (src : Str) (t : List Event) : Run (Str × Option Err) :=
  resolvePath h src (guardRun h t).trace

/-- The run of the destination resolution inside `Copy`, after the source. -/
def destinationRun (h : Host) (src dst : Str) (t : List Event) : Run (Str × Option Err) :=
  resolvePath h dst (sourceRun h src t).trace

/-! ## A concrete host -/

/-- A host whose replies do not change: the runtime lists `containers` and
reports the name `runtime`, the mount table reads `mounts`, a pattern matches
the names that contain it, the client is obtained and every command succeeds. -/
def fixedHost (containers : List Container) (mounts runtime : Str) : Host where
  matchesRegex := fun pattern name => Contains name pattern
  ListContainers := fun _ => .ok containers
  Version := fun _ => .ok runtime
  ReadFile := fun _ _ => .ok mounts
  getRuntimeClient := fun _ => none
  RunCommand := fun _ _ => none
  programName := "crictl".toList

/-- A mount table with the root of container `abc123` on its second line. -/
def webMounts : Str :=
  "proc /proc proc rw 0 0\noverlay /var/lib/rt/abc123/rootfs overlay rw,relatime 0 0\n".toList

/-- The host of the end-to-end scenario: one container `web` with identifier
`abc123` whose root is mounted at `/var/lib/rt/abc123/rootfs`. -/
def webHost : Host :=
  fixedHost [⟨"abc123".toList, "web".toList⟩] webMounts "containerd".toList

/-- The host `webHost` with a mount table that has no root mount line. -/
def bareHost : Host :=
  fixedHost [⟨"abc123".toList, "web".toList⟩] "proc /proc proc rw 0 0\n".toList
    "containerd".toList

/-- The host `webHost` with a root mount target that ends in a slash. -/
def slashHost : Host :=
  fixedHost [⟨"abc123".toList, "web".toList⟩]
    "overlay /var/lib/rt/abc123/rootfs/ overlay rw,relatime 0 0\n".toList "containerd".toList

/-- A host with two containers whose names contain `web`. -/
def twoHost : Host :=
  fixedHost [⟨"abc123".toList, "web-1".toList⟩, ⟨"def456".toList, "web-2".toList⟩] webMounts
    "containerd".toList

/-- A mount table with two lines that contain `abc123`, the second of which is
the root mount. -/
def mixedMounts : Str :=
  "shm /run/rt/abc123/shm tmpfs rw 0 0\noverlay /var/lib/rt/abc123/rootfs overlay rw 0 0\n".toList

/-- The lines of `mixedMounts` with the first two exchanged. -/
def swappedMounts : Str :=
  "overlay /var/lib/rt/abc123/rootfs overlay rw 0 0\nshm /run/rt/abc123/shm tmpfs rw 0 0\n".toList

/-- The host `webHost` with the mount table `mixedMounts`. -/
def mixedHost : Host :=
  fixedHost [⟨"abc123".toList, "web".toList⟩] mixedMounts "containerd".toList

/-- The host `webHost` with the mount table `swappedMounts`. -/
def swappedHost : Host :=
  fixedHost [⟨"abc123".toList, "web".toList⟩] swappedMounts "containerd".toList

/-! ## The spec's reading of a mount-table line and of the join -/

/-- The format of a line of the mount table as the spec gives it,
`source target type options dump pass`: six fields with one space between
them, none of them empty, and no tab in the line. -/
def IsMountLine (line : Str) : Prop :=
  (Split line ' ').length = 6 ∧ (∀ f ∈ Split line ' ', f ≠ []) ∧ '\t' ∉ line

instance (line : Str) : Decidable (IsMountLine line) :=
  inferInstanceAs (Decidable
    ((Split line ' ').length = 6 ∧ (∀ f ∈ Split line ' ', f ≠ []) ∧ '\t' ∉ line))

/-- The format of the mount table: every line is a mount-table line or empty. -/
def IsMountTable (data : Str) : Prop :=
  ∀ line ∈ Split data '\n', line = [] ∨ IsMountLine line

instance (data : Str) : Decidable (IsMountTable data) :=
  inferInstanceAs (Decidable (∀ line ∈ Split data '\n', line = [] ∨ IsMountLine line))

/-- The join as the spec words it: the root and the fragment with exactly one
`/` between them, whatever slashes end the root or start the fragment. -/
def joinOneSeparator (root fragment : Str) : Str :=
  (root.reverse.dropWhile (fun c => c == '/')).reverse
    ++ '/' :: fragment.dropWhile (fun c => c == '/')

/-- The fields after the last separator seen, `cur` being the field under
construction, in reverse. -/
def whitespaceFieldsFrom : Str → Str → List Str
  | [], cur => if cur = [] then [] else [cur.reverse]
  | c :: cs, cur =>
    if c = ' ' ∨ c = '\t' then
      if cur = [] then whitespaceFieldsFrom cs [] else cur.reverse :: whitespaceFieldsFrom cs []
    else whitespaceFieldsFrom cs (c :: cur)

/-- The fields of a line as the spec words them: the pieces between runs of
spaces and tabs. -/
def whitespaceFields (line : Str) : List Str :=
  whitespaceFieldsFrom line []

/-! ## Facts about the string functions -/

theorem Contains_iff_segment (s substr : Str) : Contains s substr = true ↔ substr <:+: s := by
  induction s with
  | nil => simp [Contains]
  | cons c cs ih => simp [Contains, ih, List.infix_cons_iff]

theorem Contains_append_mid (a substr b : Str) : Contains (a ++ substr ++ b) substr = true :=
  (Contains_iff_segment _ _).2 ⟨a, b, rfl⟩

theorem Contains_singleton (s : Str) (c : Char) : Contains s [c] = true ↔ c ∈ s := by
  rw [Contains_iff_segment]
  constructor
  · rintro ⟨a, b, rfl⟩
    simp
  · intro hc
    obtain ⟨a, b, rfl⟩ := List.append_of_mem hc
    exact ⟨a, b, by simp⟩

theorem Split_of_not_mem (s : Str) (sep : Char) (hs : sep ∉ s) : Split s sep = [s] := by
  induction s with
  | nil => rfl
  | cons c cs ih =>
    have hc : c ≠ sep := fun e => hs (by simp [e])
    have hcs : sep ∉ cs := fun e => hs (by simp [e])
    simp [Split, hc, ih hcs]

theorem Split_append_sep (a rest : Str) (sep : Char) (ha : sep ∉ a) :
    Split (a ++ sep :: rest) sep = a :: Split rest sep := by
  induction a with
  | nil => simp [Split]
  | cons c cs ih =>
    have hc : c ≠ sep := fun e => ha (by simp [e])
    have hcs : sep ∉ cs := fun e => ha (by simp [e])
    simp [Split, hc, ih hcs]

theorem lineQualifies_iff (containerId line : Str) :
    lineQualifies containerId line = true ↔
      Contains line containerId = true ∧ Contains line "rootfs".toList = true := by
  simp only [lineQualifies, Bool.and_eq_true]

theorem rootFsLine_eq_find (containerId : Str) (mounts : List Str) :
    rootFsLine containerId mounts = mounts.find? (lineQualifies containerId) := by
  induction mounts with
  | nil => rfl
  | cons line rest ih =>
    by_cases hq : lineQualifies containerId line = true
    · simp [rootFsLine, hq]
    · simp [rootFsLine, hq, ih]

theorem rootFsLine_eq_none (containerId : Str) (mounts : List Str) :
    rootFsLine containerId mounts = none ↔
      ∀ line ∈ mounts, lineQualifies containerId line = false := by
  simp [rootFsLine_eq_find]

/-- The filter leaves nothing when no listed container matches the pattern. -/
theorem getContainersList_eq_nil (m : Str → Str → Bool) (containers : List Container)
    (nameRegexp : Str) (hno : ∀ c ∈ containers, m nameRegexp c.Name = false) :
    getContainersList m containers nameRegexp = [] := by
  simp only [getContainersList, List.filter_eq_nil_iff]
  intro c hc
  simp [hno c hc]

theorem Split_eq_cons (s : Str) (sep : Char) : ∃ p ps, Split s sep = p :: ps := by
  induction s with
  | nil => exact ⟨[], [], rfl⟩
  | cons c cs ih =>
    by_cases hc : c = sep
    · exact ⟨[], Split cs sep, by simp [Split, hc]⟩
    · obtain ⟨p, ps, hp⟩ := ih
      exact ⟨c :: p, ps, by simp [Split, hc, hp]⟩

/-- On `cName:rest` with no colon in `cName`, `resolvePath` looks up `cName` and
appends the first colon-separated piece of `rest` to the root it finds. -/
theorem resolvePath_colon (h : Host) (cName rest p : Str) (ps : List Str) (t : List Event)
    (hc : ':' ∉ cName) (hs : Split rest ':' = p :: ps) :
    resolvePath h (cName ++ ':' :: rest) t =
      match (findRootFs h cName
          (t ++ [Event.debugf "Resolving path %v".toList [.str (cName ++ ':' :: rest)]])).out with
      | .panic => ⟨.panic, (findRootFs h cName
          (t ++ [Event.debugf "Resolving path %v".toList [.str (cName ++ ':' :: rest)]])).trace⟩
      | .ret (_, some err) => ⟨.ret ([], some err), (findRootFs h cName
          (t ++ [Event.debugf "Resolving path %v".toList [.str (cName ++ ':' :: rest)]])).trace⟩
      | .ret (resPath, none) => ⟨.ret (resPath ++ p, none), (findRootFs h cName
          (t ++ [Event.debugf "Resolving path %v".toList [.str (cName ++ ':' :: rest)]])).trace⟩ := by
  have hcont : Contains (cName ++ ':' :: rest) ":".toList = true :=
    (Contains_singleton _ _).2 (by simp)
  have hsplit : Split (cName ++ ':' :: rest) ':' = cName :: p :: ps := by
    rw [Split_append_sep _ _ _ hc, hs]
  simp only [resolvePath, hcont, hsplit, if_true, List.getElem?_cons_zero,
    List.getElem?_cons_succ]

theorem getContainerId_of_nil (h : Host) (containerName : Str) (t : List Event)
    (containers : List Container) (hl : h.ListContainers t = .ok containers)
    (hnil : getContainersList h.matchesRegex containers containerName = []) :
    (getContainerId h containerName t).out = .panic := by
  simp [getContainerId, hl, hnil]

theorem findRootFs_of_panic (h : Host) (containerName : Str) (t : List Event)
    (hg : (getContainerId h containerName t).out = .panic) :
    (findRootFs h containerName t).out = .panic := by
  simp only [findRootFs, hg]

/-! ## Container name resolution -/

/-- C1: when the runtime lists no container that matches the pattern,
`getContainerId` does not fail with an error value: the index `containerList[0]`
is out of range and the call panics, and with it `findRootFs` and `resolvePath`
on the endpoint `name:fragment`. -/
theorem getContainerId_no_match_panics (h : Host) (containerName fragment : Str)
    (t : List Event) (containers : List Container) (hcolon : ':' ∉ containerName)
    (hl : h.ListContainers (t ++ [Event.debugf "Resolving path %v".toList
      [.str (containerName ++ ':' :: fragment)]]) = .ok containers)
    (hno : ∀ c ∈ containers, h.matchesRegex containerName c.Name = false) :
    (getContainerId h containerName (t ++ [Event.debugf "Resolving path %v".toList
      [.str (containerName ++ ':' :: fragment)]])).out = .panic ∧
    (findRootFs h containerName (t ++ [Event.debugf "Resolving path %v".toList
      [.str (containerName ++ ':' :: fragment)]])).out = .panic ∧
    (resolvePath h (containerName ++ ':' :: fragment) t).out = .panic := by
  have hg : (getContainerId h containerName (t ++ [Event.debugf "Resolving path %v".toList
      [.str (containerName ++ ':' :: fragment)]])).out = .panic :=
    getContainerId_of_nil h containerName _ containers hl (getContainersList_eq_nil _ _ _ hno)
  have hf : (findRootFs h containerName (t ++ [Event.debugf "Resolving path %v".toList
      [.str (containerName ++ ':' :: fragment)]])).out = .panic :=
    findRootFs_of_panic h containerName _ hg
  obtain ⟨p, ps, hs⟩ := Split_eq_cons fragment ':'
  refine ⟨hg, hf, ?_⟩
  rw [resolvePath_colon h containerName fragment p ps t hcolon hs, hf]

/-- C1, on a runtime that lists no container at all: resolving `web:/etc/hosts`
panics. -/
theorem getContainerId_no_match_panics_witness :
    (getContainerId (fixedHost [] [] "containerd".toList) "web".toList
      [Event.debugf "Resolving path %v".toList [.str "web:/etc/hosts".toList]]).out = .panic ∧
    (findRootFs (fixedHost [] [] "containerd".toList) "web".toList
      [Event.debugf "Resolving path %v".toList [.str "web:/etc/hosts".toList]]).out = .panic ∧
    (resolvePath (fixedHost [] [] "containerd".toList) "web:/etc/hosts".toList []).out = .panic :=
  getContainerId_no_match_panics (fixedHost [] [] "containerd".toList) "web".toList
    "/etc/hosts".toList [] [] (by decide) rfl (by simp)

/-! ## Endpoint parsing -/

/-- C2: on `name:fragment:rest` the split is at every colon and `resolvePath`
keeps only the piece between the first and the second colon: it returns the
root followed by `fragment`, and `:rest` is dropped. -/
theorem resolvePath_drops_after_second_colon (h : Host) (name fragment rest root : Str)
    (t : List Event) (hn : ':' ∉ name) (hf : ':' ∉ fragment)
    (hr : (findRootFs h name (t ++ [Event.debugf "Resolving path %v".toList
      [.str (name ++ ':' :: (fragment ++ ':' :: rest))]])).out = .ret (root, none)) :
    (resolvePath h (name ++ ':' :: (fragment ++ ':' :: rest)) t).out
      = .ret (root ++ fragment, none) := by
  rw [resolvePath_colon h name (fragment ++ ':' :: rest) fragment (Split rest ':') t hn
    (Split_append_sep _ _ _ hf), hr]

/-- C2, on the endpoint `web:/a:b`: the result is the root followed by `/a`. -/
theorem resolvePath_drops_after_second_colon_witness :
    (findRootFs webHost "web".toList [Event.debugf "Resolving path %v".toList
      [.str "web:/a:b".toList]]).out = .ret ("/var/lib/rt/abc123/rootfs".toList, none) ∧
    (resolvePath webHost "web:/a:b".toList []).out
      = .ret ("/var/lib/rt/abc123/rootfs/a".toList, none) :=
  ⟨by decide, resolvePath_drops_after_second_colon webHost "web".toList "/a".toList "b".toList
    "/var/lib/rt/abc123/rootfs".toList [] (by decide) (by decide) (by decide)⟩

/-- Once the identifier is resolved and the mount table is read, the result of
`findRootFs` is decided by the line the loop stops at. -/
theorem findRootFs_of_id (h : Host) (containerName containerId data : Str) (t : List Event)
    (hg : (getContainerId h containerName t).out = .ret (containerId, none))
    (hr : h.ReadFile "/proc/mounts".toList (getContainerId h containerName t).trace = .ok data) :
    (findRootFs h containerName t).out =
      match rootFsLine containerId (Split data '\n') with
      | some line =>
        match (Split line ' ')[1]? with
        | some target => .ret (target, none)
        | none => .panic
      | none =>
        .ret ([], some ("could not find the rootfs for container ".toList ++ containerName
          ++ "(".toList ++ containerId ++ ")".toList)) := by
  simp only [findRootFs, hg, hr]
  split
  · split <;> rfl
  · rfl

/-! ## The mount-table scan -/

/-- C3 (as stated, refuted): in the end-to-end table the identifier `abc123`
is in no line's source field, the first field of the line, and `findRootFs`
still selects the `overlay` line and returns its target. -/
theorem findRootFs_selects_line_without_id_in_source :
    (findRootFs webHost "web".toList []).out
      = .ret ("/var/lib/rt/abc123/rootfs".toList, none) ∧
    rootFsLine "abc123".toList (Split webMounts '\n')
      = some "overlay /var/lib/rt/abc123/rootfs overlay rw,relatime 0 0".toList ∧
    ∀ line ∈ Split webMounts '\n',
      Contains ((Split line ' ').headD []) "abc123".toList = false := by
  decide

/-- C3 (amended): `findRootFs` returns the path `p` exactly when `p` is the second
space-separated piece of the first line, in table order, whose text contains
both the identifier and `rootfs`; the identifier may stand in any field. -/
theorem findRootFs_selects_first_line_containing_id (h : Host)
    (containerName containerId data p : Str) (t : List Event)
    (hg : (getContainerId h containerName t).out = .ret (containerId, none))
    (hr : h.ReadFile "/proc/mounts".toList (getContainerId h containerName t).trace = .ok data) :
    (findRootFs h containerName t).out = .ret (p, none) ↔
      ∃ pre line post, Split data '\n' = pre ++ line :: post ∧
        (Contains line containerId = true ∧ Contains line "rootfs".toList = true) ∧
        (∀ l ∈ pre, ¬ (Contains l containerId = true ∧ Contains l "rootfs".toList = true)) ∧
        (Split line ' ')[1]? = some p := by
  rw [findRootFs_of_id h containerName containerId data t hg hr]
  constructor
  · intro hout
    split at hout
    · rename_i line hline
      rw [rootFsLine_eq_find, List.find?_eq_some] at hline
      obtain ⟨hq, pre, post, hsplit, hpre⟩ := hline
      refine ⟨pre, line, post, hsplit, (lineQualifies_iff _ _).1 hq, ?_, ?_⟩
      · intro l hl hboth
        have hnot := hpre l hl
        rw [(lineQualifies_iff _ _).2 hboth] at hnot
        exact absurd hnot (by decide)
      · split at hout
        · rename_i target htarget
          simp only [Outcome.ret.injEq, Prod.mk.injEq, and_true] at hout
          rw [htarget, hout]
        · cases hout
    · simp at hout
  · rintro ⟨pre, line, post, hsplit, hq, hpre, hp⟩
    have hline : rootFsLine containerId (Split data '\n') = some line := by
      rw [rootFsLine_eq_find, List.find?_eq_some]
      refine ⟨(lineQualifies_iff _ _).2 hq, pre, post, hsplit, ?_⟩
      intro l hl
      cases hql : lineQualifies containerId l with
      | false => rfl
      | true => exact absurd ((lineQualifies_iff _ _).1 hql) (hpre l hl)
    simp only [hline, hp]

/-- C3 (amended), on the end-to-end table. -/
theorem findRootFs_selects_first_line_containing_id_witness :
    (getContainerId webHost "web".toList []).out = .ret ("abc123".toList, none) ∧
    webHost.ReadFile "/proc/mounts".toList (getContainerId webHost "web".toList []).trace
      = .ok webMounts ∧
    ((findRootFs webHost "web".toList []).out
        = .ret ("/var/lib/rt/abc123/rootfs".toList, none) ↔
      ∃ pre line post, Split webMounts '\n' = pre ++ line :: post ∧
        (Contains line "abc123".toList = true ∧ Contains line "rootfs".toList = true) ∧
        (∀ l ∈ pre, ¬ (Contains l "abc123".toList = true ∧ Contains l "rootfs".toList = true)) ∧
        (Split line ' ')[1]? = some "/var/lib/rt/abc123/rootfs".toList) :=
  ⟨by decide, rfl, findRootFs_selects_first_line_containing_id webHost "web".toList
    "abc123".toList webMounts "/var/lib/rt/abc123/rootfs".toList [] (by decide) rfl⟩

/-- C10: when the identifier is resolved, the mount table is read and no line
contains both the identifier and `rootfs`, `findRootFs` returns the empty path
and an error that names the container. -/
theorem findRootFs_no_qualifying_line (h : Host) (containerName containerId data : Str)
    (t : List Event)
    (hg : (getContainerId h containerName t).out = .ret (containerId, none))
    (hr : h.ReadFile "/proc/mounts".toList (getContainerId h containerName t).trace = .ok data)
    (hno : ∀ line ∈ Split data '\n',
      ¬ (Contains line containerId = true ∧ Contains line "rootfs".toList = true)) :
    (findRootFs h containerName t).out =
      .ret ([], some ("could not find the rootfs for container ".toList ++ containerName
        ++ "(".toList ++ containerId ++ ")".toList)) := by
  have hnone : rootFsLine containerId (Split data '\n') = none := by
    rw [rootFsLine_eq_none]
    intro line hl
    cases hql : lineQualifies containerId line with
    | false => rfl
    | true => exact absurd ((lineQualifies_iff _ _).1 hql) (hno line hl)
  rw [findRootFs_of_id h containerName containerId data t hg hr]
  simp only [hnone]

/-- C10, on a mount table that has only the `proc` line. -/
theorem findRootFs_no_qualifying_line_witness :
    (getContainerId bareHost "web".toList []).out = .ret ("abc123".toList, none) ∧
    bareHost.ReadFile "/proc/mounts".toList (getContainerId bareHost "web".toList []).trace
      = .ok "proc /proc proc rw 0 0\n".toList ∧
    (∀ line ∈ Split "proc /proc proc rw 0 0\n".toList '\n',
      ¬ (Contains line "abc123".toList = true ∧ Contains line "rootfs".toList = true)) ∧
    (findRootFs bareHost "web".toList []).out =
      .ret ([], some "could not find the rootfs for container web(abc123)".toList) :=
  ⟨by decide, rfl, by decide,
    findRootFs_no_qualifying_line bareHost "web".toList "abc123".toList
      "proc /proc proc rw 0 0\n".toList [] (by decide) rfl (by decide)⟩

theorem dropWhile_slash_of_head (l : Str) (hl : l.head? ≠ some '/') :
    l.dropWhile (fun c => c == '/') = l := by
  cases l with
  | nil => rfl
  | cons a as =>
    have ha : a ≠ '/' := fun e => hl (by simp [e])
    simp [List.dropWhile_cons, ha]

theorem joinOneSeparator_of_clean (root f : Str) (hroot : root.getLast? ≠ some '/')
    (hf : f.head? ≠ some '/') : joinOneSeparator root ('/' :: f) = root ++ '/' :: f := by
  have hrev : root.reverse.head? ≠ some '/' := by
    rw [List.head?_reverse]
    exact hroot
  simp only [joinOneSeparator, dropWhile_slash_of_head _ hrev, List.reverse_reverse]
  rw [List.dropWhile_cons]
  simp [dropWhile_slash_of_head _ hf]

/-! ## Joining the root and the fragment -/

/-- C5 (as stated, refuted): for a fragment without a leading slash the result
has no separator between root and fragment, and for a root that ends in a
slash and a fragment that starts with one it has two. -/
theorem resolvePath_join_has_zero_or_two_separators :
    (findRootFs webHost "web".toList [Event.debugf "Resolving path %v".toList
      [.str "web:etc/hosts".toList]]).out = .ret ("/var/lib/rt/abc123/rootfs".toList, none) ∧
    (resolvePath webHost "web:etc/hosts".toList []).out
      = .ret ("/var/lib/rt/abc123/rootfsetc/hosts".toList, none) ∧
    joinOneSeparator "/var/lib/rt/abc123/rootfs".toList "etc/hosts".toList
      = "/var/lib/rt/abc123/rootfs/etc/hosts".toList ∧
    (findRootFs slashHost "web".toList [Event.debugf "Resolving path %v".toList
      [.str "web:/etc/hosts".toList]]).out = .ret ("/var/lib/rt/abc123/rootfs/".toList, none) ∧
    (resolvePath slashHost "web:/etc/hosts".toList []).out
      = .ret ("/var/lib/rt/abc123/rootfs//etc/hosts".toList, none) ∧
    joinOneSeparator "/var/lib/rt/abc123/rootfs/".toList "/etc/hosts".toList
      = "/var/lib/rt/abc123/rootfs/etc/hosts".toList := by
  decide

/-- C5 (amended): for an endpoint whose colon split starts with `cName`, `cPath`
and whose root lookup gives `root`, `resolvePath` returns `root` followed by
`cPath` with nothing added or removed; there is exactly one `/` between them
when `root` does not end in `/` and `cPath` starts with exactly one `/`. -/
theorem resolvePath_concatenates_root_and_fragment (h : Host) (path cName cPath root : Str)
    (more : List Str) (t : List Event) (hs : Split path ':' = cName :: cPath :: more)
    (hr : (findRootFs h cName (t ++ [Event.debugf "Resolving path %v".toList
      [.str path]])).out = .ret (root, none)) :
    (resolvePath h path t).out = .ret (root ++ cPath, none) ∧
    ∀ f, cPath = '/' :: f → f.head? ≠ some '/' → root.getLast? ≠ some '/' →
      root ++ cPath = joinOneSeparator root cPath := by
  have hcont : Contains path ":".toList = true := by
    rw [show ":".toList = [':'] from rfl, Contains_singleton]
    by_contra hc
    rw [Split_of_not_mem _ _ hc] at hs
    simp at hs
  constructor
  · simp only [resolvePath, hcont, hs, if_true, List.getElem?_cons_zero,
      List.getElem?_cons_succ, hr]
  · intro f hf hhead hlast
    rw [hf, joinOneSeparator_of_clean root f hlast hhead]

/-- C5 (amended), on the endpoint `web:/var/log/app.log`. -/
theorem resolvePath_concatenates_root_and_fragment_witness :
    Split "web:/var/log/app.log".toList ':' = ["web".toList, "/var/log/app.log".toList] ∧
    (findRootFs webHost "web".toList [Event.debugf "Resolving path %v".toList
      [.str "web:/var/log/app.log".toList]]).out
      = .ret ("/var/lib/rt/abc123/rootfs".toList, none) ∧
    ((resolvePath webHost "web:/var/log/app.log".toList []).out
        = .ret ("/var/lib/rt/abc123/rootfs/var/log/app.log".toList, none) ∧
      ∀ f, "/var/log/app.log".toList = '/' :: f → f.head? ≠ some '/' →
        "/var/lib/rt/abc123/rootfs".toList.getLast? ≠ some '/' →
        "/var/lib/rt/abc123/rootfs".toList ++ "/var/log/app.log".toList
          = joinOneSeparator "/var/lib/rt/abc123/rootfs".toList "/var/log/app.log".toList) :=
  ⟨by decide, by decide,
    resolvePath_concatenates_root_and_fragment webHost "web:/var/log/app.log".toList
      "web".toList "/var/log/app.log".toList "/var/lib/rt/abc123/rootfs".toList [] []
      (by decide) (by decide)⟩

/-- What `getContainerId` does when the filter leaves more than one container. -/
theorem getContainerId_of_many (h : Host) (containerName : Str) (t : List Event)
    (containers : List Container) (hl : h.ListContainers t = .ok containers)
    (hmany : 1 < (getContainersList h.matchesRegex containers containerName).length) :
    getContainerId h containerName t =
      ⟨.ret ([], some ("could not convert container name \x27".toList ++ containerName
          ++ "\x27 to id".toList)),
        t ++ [Event.rpcListContainers]
          ++ [Event.debugf "ListContainerResponse: %v".toList
            [.containers (getContainersList h.matchesRegex containers containerName)]]
          ++ [Event.infof "containers %v".toList
            [.containers (getContainersList h.matchesRegex containers containerName)]]⟩ := by
  simp only [getContainerId, hl, gt_iff_lt, hmany, if_true]

/-! ## Ambiguous names -/

/-- C6: when more than one listed container matches the pattern,
`getContainerId` returns the empty identifier together with an error, and
`findRootFs` passes that error on with the empty path. -/
theorem getContainerId_ambiguous_fails (h : Host) (containerName : Str) (t : List Event)
    (containers : List Container) (hl : h.ListContainers t = .ok containers)
    (hmany : 1 < (getContainersList h.matchesRegex containers containerName).length) :
    (∃ err, (getContainerId h containerName t).out = .ret ([], some err)) ∧
    (∃ err, (findRootFs h containerName t).out = .ret ([], some err)) := by
  have hg := getContainerId_of_many h containerName t containers hl hmany
  constructor
  · exact ⟨_, congrArg Run.out hg⟩
  · refine ⟨"could not convert container name \x27".toList ++ containerName
      ++ "\x27 to id".toList, ?_⟩
    simp only [findRootFs, hg]

/-- C6, on a runtime with the containers `web-1` and `web-2` and the pattern `web`. -/
theorem getContainerId_ambiguous_fails_witness :
    twoHost.ListContainers []
      = .ok [⟨"abc123".toList, "web-1".toList⟩, ⟨"def456".toList, "web-2".toList⟩] ∧
    1 < (getContainersList twoHost.matchesRegex
      [⟨"abc123".toList, "web-1".toList⟩, ⟨"def456".toList, "web-2".toList⟩]
      "web".toList).length ∧
    ((∃ err, (getContainerId twoHost "web".toList []).out = .ret ([], some err)) ∧
      (∃ err, (findRootFs twoHost "web".toList []).out = .ret ([], some err))) :=
  ⟨rfl, by decide, getContainerId_ambiguous_fails twoHost "web".toList []
    [⟨"abc123".toList, "web-1".toList⟩, ⟨"def456".toList, "web-2".toList⟩] rfl (by decide)⟩

/-- C7 (as stated, refuted): with the containers `web-1` and `web-2` matching
`web`, neither the name nor the identifier of any of them occurs in the text of
the error. -/
theorem getContainerId_error_names_no_container :
    getContainersList twoHost.matchesRegex
        [⟨"abc123".toList, "web-1".toList⟩, ⟨"def456".toList, "web-2".toList⟩] "web".toList
      = [⟨"abc123".toList, "web-1".toList⟩, ⟨"def456".toList, "web-2".toList⟩] ∧
    (getContainerId twoHost "web".toList []).out
      = .ret ([], some "could not convert container name \x27web\x27 to id".toList) ∧
    ∀ c ∈ [(⟨"abc123".toList, "web-1".toList⟩ : Container), ⟨"def456".toList, "web-2".toList⟩],
      Contains "could not convert container name \x27web\x27 to id".toList c.Name = false ∧
      Contains "could not convert container name \x27web\x27 to id".toList c.Id = false := by
  decide

/-- C7 (amended): when more than one listed container matches the pattern, the
text of the error quotes the pattern that was given, and the matching
containers are enumerated in an info log line, not in the error. -/
theorem getContainerId_ambiguous_error_quotes_pattern (h : Host) (containerName : Str)
    (t : List Event) (containers : List Container) (hl : h.ListContainers t = .ok containers)
    (hmany : 1 < (getContainersList h.matchesRegex containers containerName).length) :
    (getContainerId h containerName t).out =
      .ret ([], some ("could not convert container name \x27".toList ++ containerName
        ++ "\x27 to id".toList)) ∧
    Contains ("could not convert container name \x27".toList ++ containerName
      ++ "\x27 to id".toList) containerName = true ∧
    (getContainerId h containerName t).trace.getLast? =
      some (Event.infof "containers %v".toList
        [.containers (getContainersList h.matchesRegex containers containerName)]) := by
  have hg := getContainerId_of_many h containerName t containers hl hmany
  refine ⟨congrArg Run.out hg, Contains_append_mid _ _ _, ?_⟩
  rw [hg]
  simp only [List.getLast?_append, List.getLast?_singleton, Option.or_some]

/-- C7 (amended), on a runtime with the containers `web-1` and `web-2`. -/
theorem getContainerId_ambiguous_error_quotes_pattern_witness :
    twoHost.ListContainers []
      = .ok [⟨"abc123".toList, "web-1".toList⟩, ⟨"def456".toList, "web-2".toList⟩] ∧
    1 < (getContainersList twoHost.matchesRegex
      [⟨"abc123".toList, "web-1".toList⟩, ⟨"def456".toList, "web-2".toList⟩]
      "web".toList).length ∧
    ((getContainerId twoHost "web".toList []).out
        = .ret ([], some "could not convert container name \x27web\x27 to id".toList) ∧
      Contains "could not convert container name \x27web\x27 to id".toList "web".toList = true ∧
      (getContainerId twoHost "web".toList []).trace.getLast? =
        some (Event.infof "containers %v".toList
          [.containers [⟨"abc123".toList, "web-1".toList⟩, ⟨"def456".toList, "web-2".toList⟩]])) :=
  ⟨rfl, by decide, getContainerId_ambiguous_error_quotes_pattern twoHost "web".toList []
    [⟨"abc123".toList, "web-1".toList⟩, ⟨"def456".toList, "web-2".toList⟩] rfl (by decide)⟩

/-! ## The runtime guard -/

/-- C8: given a Version reply, `validateRuntime` returns no error exactly when
the reported runtime name is `containerd`, and for every other name it returns
an error whose text contains that name. -/
theorem validateRuntime_accepts_only_containerd (h : Host) (t : List Event)
    (runtimeName : Str) (hv : h.Version t = .ok runtimeName) :
    ((validateRuntime h t).out = .ret none ↔ runtimeName = "containerd".toList) ∧
    (runtimeName ≠ "containerd".toList →
      (validateRuntime h t).out = .ret (some ("copy not supported for runtime \x27".toList
        ++ runtimeName ++ "\x27".toList)) ∧
      Contains ("copy not supported for runtime \x27".toList ++ runtimeName ++ "\x27".toList)
        runtimeName = true) := by
  by_cases hn : runtimeName = "containerd".toList
  · simp only [validateRuntime, hv, hn, ne_eq, not_true_eq_false, if_false, true_and,
      false_implies, and_self]
  · refine ⟨?_, fun _ => ⟨?_, Contains_append_mid _ _ _⟩⟩
    · simp only [validateRuntime, hv, ne_eq, hn, not_false_eq_true, if_true, iff_false]
      intro hbad
      cases hbad
    · simp only [validateRuntime, hv, ne_eq, hn, not_false_eq_true, if_true]

/-- C8, on a runtime that reports the name `Containerd`. -/
theorem validateRuntime_accepts_only_containerd_witness :
    (fixedHost [] [] "Containerd".toList).Version [] = .ok "Containerd".toList ∧
    (((validateRuntime (fixedHost [] [] "Containerd".toList) []).out = .ret none ↔
        "Containerd".toList = "containerd".toList) ∧
      ("Containerd".toList ≠ "containerd".toList →
        (validateRuntime (fixedHost [] [] "Containerd".toList) []).out
          = .ret (some "copy not supported for runtime \x27Containerd\x27".toList) ∧
        Contains "copy not supported for runtime \x27Containerd\x27".toList
          "Containerd".toList = true)) :=
  ⟨rfl, validateRuntime_accepts_only_containerd (fixedHost [] [] "Containerd".toList) []
    "Containerd".toList rfl⟩

/-! ## Host paths -/

/-- C9: an endpoint without a colon is returned unchanged with no error, and
the only effect of the call is the debug log line: no remote call and no read
of the mount table. -/
theorem resolvePath_host_path_unchanged (h : Host) (path : Str) (t : List Event)
    (hc : ':' ∉ path) :
    ∃ log, resolvePath h path t = ⟨.ret (path, none), t ++ log⟩ ∧
      ∀ e ∈ log, e.isRemoteCall = false ∧ e.isMountRead = false := by
  have hcont : Contains path ":".toList = false := by
    rw [show ":".toList = [':'] from rfl]
    cases hb : Contains path [':'] with
    | false => rfl
    | true => exact absurd ((Contains_singleton _ _).1 hb) hc
  refine ⟨[Event.debugf "Resolving path %v".toList [.str path]], ?_, ?_⟩
  · simp only [resolvePath, hcont, Bool.false_eq_true, if_false]
  · intro e he
    rw [List.mem_singleton] at he
    subst he
    exact ⟨rfl, rfl⟩

/-- C9, on the endpoint `plainhostpath`. -/
theorem resolvePath_host_path_unchanged_witness :
    ':' ∉ "plainhostpath".toList ∧
    ∃ log, resolvePath webHost "plainhostpath".toList []
        = ⟨.ret ("plainhostpath".toList, none), [] ++ log⟩ ∧
      ∀ e ∈ log, e.isRemoteCall = false ∧ e.isMountRead = false :=
  ⟨by decide, resolvePath_host_path_unchanged webHost "plainhostpath".toList [] (by decide)⟩

/-! ## Facts about the traces and about `copyFile` -/

theorem listQueries_append (t log : List Event) :
    listQueries (t ++ log) = listQueries t + listQueries log := by
  simp [listQueries, List.countP_append]

theorem mountReads_append (t log : List Event) :
    mountReads (t ++ log) = mountReads t + mountReads log := by
  simp [mountReads, List.countP_append]

theorem copyRuns_append (t log : List Event) :
    copyRuns (t ++ log) = copyRuns t + copyRuns log := by
  simp [copyRuns, List.countP_append]

/-- A string with a separator in it splits into at least two pieces. -/
theorem Split_of_mem (s : Str) (sep : Char) (hs : sep ∈ s) :
    ∃ p q ps, Split s sep = p :: q :: ps ∧ sep ∉ p := by
  induction s with
  | nil => simp at hs
  | cons c cs ih =>
    by_cases hc : c = sep
    · obtain ⟨q, ps, hq⟩ := Split_eq_cons cs sep
      exact ⟨[], q, ps, by simp [Split, hc, hq], by simp⟩
    · have hcs : sep ∈ cs := by
        rcases List.mem_cons.1 hs with h1 | h1
        · exact absurd h1.symm hc
        · exact h1
      obtain ⟨p, q, ps, hp, hnot⟩ := ih hcs
      refine ⟨c :: p, q, ps, by simp [Split, hc, hp], ?_⟩
      intro hmem
      rcases List.mem_cons.1 hmem with h1 | h1
      · exact hc h1.symm
      · exact hnot h1

/-- The run of `resolvePath` on an endpoint without a colon. -/
theorem resolvePath_of_no_colon (h : Host) (path : Str) (t : List Event) (hc : ':' ∉ path) :
    resolvePath h path t
      = ⟨.ret (path, none), t ++ [Event.debugf "Resolving path %v".toList [.str path]]⟩ := by
  have hcont : Contains path ":".toList = false := by
    rw [show ":".toList = [':'] from rfl]
    cases hb : Contains path [':'] with
    | false => rfl
    | true => exact absurd ((Contains_singleton _ _).1 hb) hc
  simp only [resolvePath, hcont, Bool.false_eq_true, if_false]

/-- The run of `copyFile`: the command is `cp` followed by the pieces of
`src dst` split at every space. -/
theorem copyFile_eq (h : Host) (src dst : Str) (t : List Event) :
    copyFile h src dst t =
      ⟨.ret (h.RunCommand ("cp".toList :: Split (src ++ ' ' :: dst) ' ')
          (t ++ [Event.debugf "copy command: %v".toList
            [.str ("cp ".toList ++ src ++ " ".toList ++ dst)]])),
        t ++ [Event.debugf "copy command: %v".toList
            [.str ("cp ".toList ++ src ++ " ".toList ++ dst)]]
          ++ [Event.exec ("cp".toList :: Split (src ++ ' ' :: dst) ' ')]⟩ := by
  have hcmd : "cp ".toList ++ src ++ " ".toList ++ dst
      = "cp".toList ++ ' ' :: (src ++ ' ' :: dst) := by
    show ['c', 'p', ' '] ++ src ++ [' '] ++ dst = ['c', 'p'] ++ ' ' :: (src ++ ' ' :: dst)
    simp
  have hsplit : Split ("cp ".toList ++ src ++ " ".toList ++ dst) ' '
      = "cp".toList :: Split (src ++ ' ' :: dst) ' ' := by
    rw [hcmd, Split_append_sep _ _ _ (by decide)]
  simp only [copyFile, hsplit, List.getElem?_cons_zero, List.drop_succ_cons, List.drop_zero]

theorem Split_two_operands (src dst : Str) (hsrc : ' ' ∉ src) (hdst : ' ' ∉ dst) :
    Split (src ++ ' ' :: dst) ' ' = [src, dst] := by
  rw [Split_append_sep _ _ _ hsrc, Split_of_not_mem _ _ hdst]

theorem getContainerId_counts (h : Host) (containerName : Str) (t : List Event) :
    listQueries (getContainerId h containerName t).trace = listQueries t + 1 ∧
    mountReads (getContainerId h containerName t).trace = mountReads t ∧
    copyRuns (getContainerId h containerName t).trace = copyRuns t := by
  unfold getContainerId
  simp only []
  repeat' split
  all_goals
    simp [listQueries, mountReads, copyRuns, List.countP_append, Event.isListContainers,
      Event.isMountRead, Event.isExec]

theorem findRootFs_counts (h : Host) (containerName : Str) (t : List Event) :
    listQueries (findRootFs h containerName t).trace = listQueries t + 1 ∧
    mountReads (findRootFs h containerName t).trace ≤ mountReads t + 1 ∧
    copyRuns (findRootFs h containerName t).trace = copyRuns t := by
  obtain ⟨h1, h2, h3⟩ := getContainerId_counts h containerName t
  unfold findRootFs
  simp only []
  repeat' split
  all_goals
    simp only [listQueries_append, mountReads_append, copyRuns_append, h1, h2, h3]
    simp [listQueries, mountReads, copyRuns, Event.isListContainers,
      Event.isMountRead, Event.isExec]

theorem resolvePath_counts (h : Host) (path : Str) (t : List Event) :
    listQueries (resolvePath h path t).trace
      ≤ listQueries t + (if Contains path ":".toList = true then 1 else 0) ∧
    mountReads (resolvePath h path t).trace
      ≤ mountReads t + (if Contains path ":".toList = true then 1 else 0) ∧
    copyRuns (resolvePath h path t).trace = copyRuns t := by
  unfold resolvePath
  simp only []
  by_cases hc : Contains path ":".toList = true
  · simp only [hc, if_true]
    have hlog : ∀ e : Event, e = Event.debugf "Resolving path %v".toList [.str path] →
        listQueries [e] = 0 ∧ mountReads [e] = 0 ∧ copyRuns [e] = 0 := by
      intro e he
      subst he
      exact ⟨rfl, rfl, rfl⟩
    obtain ⟨l0, m0, c0⟩ := hlog _ rfl
    cases h0 : (Split path ':')[0]? with
    | none =>
      dsimp only
      simp only [listQueries_append, mountReads_append, copyRuns_append, l0, m0, c0]
      omega
    | some cName =>
      cases h1 : (Split path ':')[1]? with
      | none =>
        dsimp only
        simp only [listQueries_append, mountReads_append, copyRuns_append, l0, m0, c0]
        omega
      | some cPath =>
        obtain ⟨f1, f2, f3⟩ := findRootFs_counts h cName
          (t ++ [Event.debugf "Resolving path %v".toList [.str path]])
        simp only [listQueries_append, mountReads_append, copyRuns_append, l0, m0, c0]
          at f1 f2 f3
        dsimp only
        split <;> dsimp only <;> omega
  · simp only [hc, Bool.false_eq_true, if_false]
    refine ⟨?_, ?_, ?_⟩ <;>
      simp [listQueries, mountReads, copyRuns, List.countP_append, Event.isListContainers,
        Event.isMountRead, Event.isExec]

theorem validateRuntime_counts (h : Host) (t : List Event) :
    listQueries (validateRuntime h t).trace = listQueries t ∧
    mountReads (validateRuntime h t).trace = mountReads t ∧
    copyRuns (validateRuntime h t).trace = copyRuns t := by
  unfold validateRuntime
  simp only []
  repeat' split
  all_goals
    simp [listQueries, mountReads, copyRuns, List.countP_append, Event.isListContainers,
      Event.isMountRead, Event.isExec]

theorem copyFile_counts (h : Host) (src dst : Str) (t : List Event) :
    listQueries (copyFile h src dst t).trace = listQueries t ∧
    mountReads (copyFile h src dst t).trace = mountReads t ∧
    copyRuns (copyFile h src dst t).trace = copyRuns t + 1 := by
  rw [copyFile_eq]
  simp [listQueries, mountReads, copyRuns, List.countP_append, Event.isListContainers,
    Event.isMountRead, Event.isExec]

theorem counts_debugf (format : Str) (args : List LogArg) :
    listQueries [Event.debugf format args] = 0 ∧ mountReads [Event.debugf format args] = 0 ∧
    copyRuns [Event.debugf format args] = 0 :=
  ⟨rfl, rfl, rfl⟩

theorem counts_getRuntimeClient :
    listQueries [Event.getRuntimeClient] = 0 ∧ mountReads [Event.getRuntimeClient] = 0 ∧
    copyRuns [Event.getRuntimeClient] = 0 :=
  ⟨rfl, rfl, rfl⟩

theorem counts_closeConnection :
    listQueries [Event.closeConnection] = 0 ∧ mountReads [Event.closeConnection] = 0 ∧
    copyRuns [Event.closeConnection] = 0 :=
  ⟨rfl, rfl, rfl⟩

/-- The queries, reads and copy runs of `copy`: one query and one read at most
for each endpoint with a colon, and one copy run at most. -/
theorem copy_counts (h : Host) (src dst : Str) (t : List Event) :
    listQueries (copy h src dst t).trace
      ≤ listQueries t + (if Contains src ":".toList = true then 1 else 0)
        + (if Contains dst ":".toList = true then 1 else 0) ∧
    mountReads (copy h src dst t).trace
      ≤ mountReads t + (if Contains src ":".toList = true then 1 else 0)
        + (if Contains dst ":".toList = true then 1 else 0) ∧
    copyRuns (copy h src dst t).trace ≤ copyRuns t + 1 := by
  obtain ⟨a1, a2, a3⟩ := resolvePath_counts h src t
  obtain ⟨b1, b2, b3⟩ := resolvePath_counts h dst (resolvePath h src t).trace
  have c1 : ∀ s d tr, listQueries (copyFile h s d tr).trace = listQueries tr :=
    fun s d tr => (copyFile_counts h s d tr).1
  have c2 : ∀ s d tr, mountReads (copyFile h s d tr).trace = mountReads tr :=
    fun s d tr => (copyFile_counts h s d tr).2.1
  have c3 : ∀ s d tr, copyRuns (copyFile h s d tr).trace = copyRuns tr + 1 :=
    fun s d tr => (copyFile_counts h s d tr).2.2
  unfold copy
  dsimp only
  split
  · dsimp only
    omega
  · dsimp only
    omega
  · split
    · dsimp only
      omega
    · dsimp only
      omega
    · simp only [c1, c2, c3, listQueries_append, mountReads_append, copyRuns_append,
        (counts_debugf _ _).1, (counts_debugf _ _).2.1, (counts_debugf _ _).2.2]
      omega

/-- The copy command runs in `copy` exactly when both endpoints resolve. -/
theorem copy_runs_iff (h : Host) (src dst : Str) (t : List Event) :
    copyRuns (copy h src dst t).trace = copyRuns t + 1 ↔
      ∃ srcRes dstRes, (resolvePath h src t).out = .ret (srcRes, none) ∧
        (resolvePath h dst (resolvePath h src t).trace).out = .ret (dstRes, none) := by
  obtain ⟨_, _, a3⟩ := resolvePath_counts h src t
  obtain ⟨_, _, b3⟩ := resolvePath_counts h dst (resolvePath h src t).trace
  have c3 : ∀ s d tr, copyRuns (copyFile h s d tr).trace = copyRuns tr + 1 :=
    fun s d tr => (copyFile_counts h s d tr).2.2
  unfold copy
  dsimp only
  split
  · rename_i h1
    dsimp only
    simp only [h1]
    constructor
    · intro hh
      omega
    · rintro ⟨_, _, hh, _⟩
      cases hh
  · rename_i h1
    dsimp only
    simp only [h1]
    constructor
    · intro hh
      omega
    · rintro ⟨_, _, hh, _⟩
      cases hh
  · rename_i srcRes h1
    split
    · rename_i h2
      dsimp only
      simp only [h2]
      constructor
      · intro hh
        omega
      · rintro ⟨_, _, _, hh⟩
        cases hh
    · rename_i h2
      dsimp only
      simp only [h2]
      constructor
      · intro hh
        omega
      · rintro ⟨_, _, _, hh⟩
        cases hh
    · rename_i dstRes h2
      simp only [c3, copyRuns_append, (counts_debugf _ _).2.2]
      constructor
      · intro _
        exact ⟨srcRes, dstRes, h1, h2⟩
      · intro _
        omega

/-- The run of `Copy` on two arguments. -/
theorem Copy_two (h : Host) (src dst : Str) (t : List Event) :
    Copy h [src, dst] t =
      match h.getRuntimeClient t with
      | some err => ⟨.ret (some err), t ++ [Event.getRuntimeClient]⟩
      | none =>
        match (validateRuntime h (t ++ [Event.getRuntimeClient])).out with
        | .panic => ⟨.panic,
            (validateRuntime h (t ++ [Event.getRuntimeClient])).trace ++ [Event.closeConnection]⟩
        | .ret (some err) => ⟨.ret (some err),
            (validateRuntime h (t ++ [Event.getRuntimeClient])).trace ++ [Event.closeConnection]⟩
        | .ret none =>
          ⟨(copy h src dst (validateRuntime h (t ++ [Event.getRuntimeClient])).trace).out,
            (copy h src dst (validateRuntime h (t ++ [Event.getRuntimeClient])).trace).trace
              ++ [Event.closeConnection]⟩ := by
  simp only [Copy, List.length_cons, List.length_nil, ne_eq, not_true_eq_false, if_false,
    List.getElem?_cons_zero, List.getElem?_cons_succ]

/-- The run of `Copy` when the argument count is not two. -/
theorem Copy_of_length_ne (h : Host) (args : List Str) (t : List Event)
    (hn : args.length ≠ 2) :
    Copy h args t
      = ⟨.ret (some ("usage: ".toList ++ h.programName ++ " <src> <dst>".toList)), t⟩ := by
  simp only [Copy, ne_eq, hn, not_false_eq_true, if_true]

/-- The queries, reads and copy runs of `Copy`. -/
theorem Copy_counts (h : Host) (args : List Str) (t : List Event) :
    listQueries (Copy h args t).trace
      ≤ listQueries t + args.countP (fun a => Contains a ":".toList) ∧
    mountReads (Copy h args t).trace
      ≤ mountReads t + args.countP (fun a => Contains a ":".toList) ∧
    copyRuns (Copy h args t).trace ≤ copyRuns t + 1 := by
  by_cases hn : args.length = 2
  · obtain ⟨src, dst, rfl⟩ := List.length_eq_two.1 hn
    obtain ⟨v1, v2, v3⟩ := validateRuntime_counts h (t ++ [Event.getRuntimeClient])
    obtain ⟨c1, c2, c3⟩ := copy_counts h src dst
      (validateRuntime h (t ++ [Event.getRuntimeClient])).trace
    simp only [listQueries_append, mountReads_append, copyRuns_append,
      counts_getRuntimeClient.1, counts_getRuntimeClient.2.1, counts_getRuntimeClient.2.2]
      at v1 v2 v3
    have hcount : [src, dst].countP (fun a => Contains a ":".toList)
        = (if Contains src ":".toList = true then 1 else 0)
          + (if Contains dst ":".toList = true then 1 else 0) := by
      simp only [List.countP_cons, List.countP_nil]
      omega
    rw [Copy_two, hcount]
    split
    · dsimp only
      simp only [listQueries_append, mountReads_append, copyRuns_append,
        counts_getRuntimeClient.1, counts_getRuntimeClient.2.1, counts_getRuntimeClient.2.2]
      omega
    · split <;>
      · dsimp only
        simp only [listQueries_append, mountReads_append, copyRuns_append,
          counts_closeConnection.1, counts_closeConnection.2.1, counts_closeConnection.2.2]
        omega
  · rw [Copy_of_length_ne h args t hn]
    dsimp only
    omega

/-- The run of `getContainerId` when the filter leaves exactly one container. -/
theorem getContainerId_of_one (h : Host) (containerName : Str) (t : List Event)
    (containers : List Container) (c : Container) (hl : h.ListContainers t = .ok containers)
    (hone : getContainersList h.matchesRegex containers containerName = [c]) :
    getContainerId h containerName t =
      ⟨.ret (c.Id, none), t ++ [Event.rpcListContainers]
        ++ [Event.debugf "ListContainerResponse: %v".toList [.containers [c]]]⟩ := by
  simp only [getContainerId, hl, hone, List.length_singleton, gt_iff_lt, Nat.lt_irrefl,
    if_false, List.getElem?_cons_zero]

/-- The run of `validateRuntime` on a runtime that reports `containerd`. -/
theorem validateRuntime_of_containerd (h : Host) (t : List Event)
    (hv : h.Version t = .ok "containerd".toList) :
    validateRuntime h t = ⟨.ret none, t ++ [Event.rpcVersion]⟩ := by
  simp only [validateRuntime, hv, ne_eq, not_true_eq_false, if_false]

/-- The run of `copy` when the source does not resolve. -/
theorem copy_of_source_error (h : Host) (src dst p err : Str) (t : List Event)
    (hs : (resolvePath h src t).out = .ret (p, some err)) :
    copy h src dst t = ⟨.ret (some err), (resolvePath h src t).trace⟩ := by
  simp only [copy, hs]

/-- The run of `copy` when the source resolves and the destination does not. -/
theorem copy_of_destination_error (h : Host) (src dst srcRes p err : Str) (t : List Event)
    (hs : (resolvePath h src t).out = .ret (srcRes, none))
    (hd : (resolvePath h dst (resolvePath h src t).trace).out = .ret (p, some err)) :
    copy h src dst t
      = ⟨.ret (some err), (resolvePath h dst (resolvePath h src t).trace).trace⟩ := by
  simp only [copy, hs, hd]

/-- The run of `copy` when both endpoints resolve. -/
theorem copy_of_resolved (h : Host) (src dst srcRes dstRes : Str) (t : List Event)
    (hs : (resolvePath h src t).out = .ret (srcRes, none))
    (hd : (resolvePath h dst (resolvePath h src t).trace).out = .ret (dstRes, none)) :
    copy h src dst t =
      copyFile h srcRes dstRes ((resolvePath h dst (resolvePath h src t).trace).trace
        ++ [Event.debugf "Copying %s to %s\n".toList [.str srcRes, .str dstRes]]) := by
  simp only [copy, hs, hd]

/-- The second space-separated piece of a line is missing exactly when the
line has no space. -/
theorem Split_space_second_eq_none (line : Str) :
    (Split line ' ')[1]? = none ↔ ' ' ∉ line := by
  constructor
  · intro hnone hmem
    obtain ⟨p, q, ps, hs, _⟩ := Split_of_mem line ' ' hmem
    rw [hs] at hnone
    simp at hnone
  · intro hnot
    rw [Split_of_not_mem _ _ hnot]
    rfl

theorem find_of_filter_singleton (p : Str → Bool) (l : List Str) (x : Str)
    (hf : l.filter p = [x]) : l.find? p = some x := by
  induction l with
  | nil => simp at hf
  | cons a l ih =>
    by_cases ha : p a = true
    · simp only [List.filter_cons, ha, if_true, List.cons.injEq] at hf
      rw [List.find?_cons_of_pos _ ha, hf.1]
    · simp only [List.filter_cons, ha, Bool.false_eq_true, if_false] at hf
      rw [List.find?_cons_of_neg _ ha, ih hf]

/-! ## The argument check -/

/-- C11: when the argument count is not two, `Copy` returns the usage error and
its trace is the trace it started with: no connection is obtained, no Version
or ListContainers query is sent, the mount table is not read and no command is
run. -/
theorem Copy_wrong_argument_count (h : Host) (args : List Str) (t : List Event)
    (hn : args.length ≠ 2) :
    (Copy h args t).out
      = .ret (some ("usage: ".toList ++ h.programName ++ " <src> <dst>".toList)) ∧
    (Copy h args t).trace = t := by
  rw [Copy_of_length_ne h args t hn]
  exact ⟨rfl, rfl⟩

/-- C11, on three arguments. -/
theorem Copy_wrong_argument_count_witness :
    ["a".toList, "b".toList, "c".toList].length ≠ 2 ∧
    (Copy webHost ["a".toList, "b".toList, "c".toList] []).out
      = .ret (some "usage: crictl <src> <dst>".toList) ∧
    (Copy webHost ["a".toList, "b".toList, "c".toList] []).trace = [] :=
  ⟨by decide, Copy_wrong_argument_count webHost ["a".toList, "b".toList, "c".toList] []
    (by decide)⟩

/-! ## The copy command line -/

/-- C13: for a source `a b` with a space in it, the command that `copyFile`
runs is `cp` followed by `a` and then the pieces of `b dst`: the source is
split into several operands, and the argument vector is not `cp`, source,
destination. -/
theorem copyFile_splits_operands_at_spaces (h : Host) (a b dst : Str) (t : List Event)
    (ha : ' ' ∉ a) :
    (copyFile h (a ++ ' ' :: b) dst t).trace.getLast?
      = some (Event.exec ("cp".toList :: a :: Split (b ++ ' ' :: dst) ' ')) ∧
    "cp".toList :: a :: Split (b ++ ' ' :: dst) ' ' ≠ ["cp".toList, a ++ ' ' :: b, dst] := by
  constructor
  · have hs : Split ((a ++ ' ' :: b) ++ ' ' :: dst) ' ' = a :: Split (b ++ ' ' :: dst) ' ' := by
      rw [List.append_assoc, List.cons_append, Split_append_sep _ _ _ ha]
    rw [copyFile_eq, hs]
    exact List.getLast?_concat _
  · intro heq
    have hlen := congrArg (fun l => (l.getD 1 []).length) heq
    simp at hlen

/-- C13, on the source `/tmp/my file` and the destination `/tmp/out`. -/
theorem copyFile_splits_operands_at_spaces_witness :
    ' ' ∉ "/tmp/my".toList ∧
    (copyFile webHost "/tmp/my file".toList "/tmp/out".toList []).trace.getLast?
      = some (Event.exec ["cp".toList, "/tmp/my".toList, "file".toList, "/tmp/out".toList]) ∧
    ["cp".toList, "/tmp/my".toList, "file".toList, "/tmp/out".toList]
      ≠ ["cp".toList, "/tmp/my file".toList, "/tmp/out".toList] :=
  ⟨by decide, copyFile_splits_operands_at_spaces webHost "/tmp/my".toList "file".toList
    "/tmp/out".toList [] (by decide)⟩

/-! ## Order of the two resolutions -/

/-- When the source resolution returns an error, the run of `copy` is the run
of the source resolution: it returns the source's error, nothing is done for
the destination and no command is run; when the source resolves, the run goes
on with the destination resolution from the trace the source left. -/
theorem copy_source_error_stops (h : Host) (src dst : Str) (t : List Event) :
    (∀ p err, (resolvePath h src t).out = .ret (p, some err) →
      copy h src dst t = ⟨.ret (some err), (resolvePath h src t).trace⟩ ∧
      copyRuns (copy h src dst t).trace = copyRuns t) ∧
    (∀ srcRes, (resolvePath h src t).out = .ret (srcRes, none) →
      ∃ log, (copy h src dst t).trace
        = (resolvePath h dst (resolvePath h src t).trace).trace ++ log) := by
  constructor
  · intro p err hs
    rw [copy_of_source_error h src dst p err t hs]
    exact ⟨rfl, (resolvePath_counts h src t).2.2⟩
  · intro srcRes hs
    cases hd : (resolvePath h dst (resolvePath h src t).trace).out with
    | panic =>
      refine ⟨[], ?_⟩
      simp only [copy, hs, hd, List.append_nil]
    | ret v =>
      obtain ⟨dstRes, e⟩ := v
      cases e with
      | some err =>
        refine ⟨[], ?_⟩
        rw [copy_of_destination_error h src dst srcRes dstRes err t hs hd, List.append_nil]
      | none =>
        rw [copy_of_resolved h src dst srcRes dstRes t hs hd, copyFile_eq]
        exact ⟨[Event.debugf "Copying %s to %s\n".toList [.str srcRes, .str dstRes]]
          ++ ([Event.debugf "copy command: %v".toList
              [.str ("cp ".toList ++ srcRes ++ " ".toList ++ dstRes)]]
            ++ [Event.exec ("cp".toList :: Split (srcRes ++ ' ' :: dstRes) ' ')]),
          by simp only [List.append_assoc]⟩

/-- On a source and a destination that both match two containers, the only
ListContainers query of the run is the one of the source. -/
theorem copy_resolves_source_first_on_twoHost :
    (resolvePath twoHost "web:/a".toList []).out
      = .ret ([], some "could not convert container name \x27web\x27 to id".toList) ∧
    (copy twoHost "web:/a".toList "web:/b".toList []
        = ⟨.ret (some "could not convert container name \x27web\x27 to id".toList),
          (resolvePath twoHost "web:/a".toList []).trace⟩ ∧
      copyRuns (copy twoHost "web:/a".toList "web:/b".toList []).trace = copyRuns []) ∧
    listQueries (copy twoHost "web:/a".toList "web:/b".toList []).trace = 1 :=
  ⟨by decide,
    (copy_source_error_stops twoHost "web:/a".toList "web:/b".toList []).1 []
      "could not convert container name \x27web\x27 to id".toList (by decide),
    by decide⟩

/-! ## Exactly one matching container -/

/-- C18: when exactly one listed container matches the pattern, `getContainerId`
returns its identifier with no error, and the mount-table scan of `findRootFs`
runs with that identifier. -/
theorem getContainerId_single_match (h : Host) (containerName : Str) (t : List Event)
    (containers : List Container) (c : Container) (hl : h.ListContainers t = .ok containers)
    (hone : getContainersList h.matchesRegex containers containerName = [c]) :
    (getContainerId h containerName t).out = .ret (c.Id, none) ∧
    ∀ data, h.ReadFile "/proc/mounts".toList (getContainerId h containerName t).trace = .ok data →
      (findRootFs h containerName t).out =
        match rootFsLine c.Id (Split data '\n') with
        | some line =>
          match (Split line ' ')[1]? with
          | some target => .ret (target, none)
          | none => .panic
        | none =>
          .ret ([], some ("could not find the rootfs for container ".toList ++ containerName
            ++ "(".toList ++ c.Id ++ ")".toList)) := by
  have hg : (getContainerId h containerName t).out = .ret (c.Id, none) :=
    congrArg Run.out (getContainerId_of_one h containerName t containers c hl hone)
  exact ⟨hg, fun data hr => findRootFs_of_id h containerName c.Id data t hg hr⟩

/-- C18, on the container `web` of the end-to-end scenario. -/
theorem getContainerId_single_match_witness :
    webHost.ListContainers [] = .ok [⟨"abc123".toList, "web".toList⟩] ∧
    getContainersList webHost.matchesRegex [⟨"abc123".toList, "web".toList⟩] "web".toList
      = [⟨"abc123".toList, "web".toList⟩] ∧
    (getContainerId webHost "web".toList []).out = .ret ("abc123".toList, none) ∧
    (findRootFs webHost "web".toList []).out
      = .ret ("/var/lib/rt/abc123/rootfs".toList, none) :=
  ⟨rfl, by decide,
    (getContainerId_single_match webHost "web".toList [] [⟨"abc123".toList, "web".toList⟩]
      ⟨"abc123".toList, "web".toList⟩ rfl (by decide)).1,
    by decide⟩

/-! ## The index accesses of `resolvePath` -/

/-- C20: for an endpoint with a colon the colon split has a first and a second
piece, so `resolvePath` panics only where `findRootFs` does, and on `name:` with
an empty fragment a successful resolution returns the root as it is. -/
theorem resolvePath_split_in_bounds (h : Host) (path : Str) (t : List Event)
    (hc : ':' ∈ path) :
    (∃ cName cPath, (Split path ':')[0]? = some cName ∧ (Split path ':')[1]? = some cPath ∧
      ((resolvePath h path t).out = .panic →
        (findRootFs h cName
          (t ++ [Event.debugf "Resolving path %v".toList [.str path]])).out = .panic)) ∧
    (∀ name root, path = name ++ [':'] → ':' ∉ name →
      (findRootFs h name (t ++ [Event.debugf "Resolving path %v".toList [.str path]])).out
        = .ret (root, none) →
      (resolvePath h path t).out = .ret (root, none)) := by
  constructor
  · obtain ⟨cName, cPath, more, hs, _⟩ := Split_of_mem path ':' hc
    refine ⟨cName, cPath, by rw [hs, List.getElem?_cons_zero],
      by rw [hs, List.getElem?_cons_succ, List.getElem?_cons_zero], ?_⟩
    have hcont : Contains path ":".toList = true := (Contains_singleton _ _).2 hc
    simp only [resolvePath, hcont, hs, if_true, List.getElem?_cons_zero,
      List.getElem?_cons_succ]
    intro hp
    split at hp
    · assumption
    · cases hp
    · cases hp
  · intro name root hpath hname hr
    subst hpath
    have hcolon := resolvePath_colon h name [] [] [] t hname rfl
    rw [hcolon, hr]
    simp only [List.append_nil]

/-- C20, on the endpoint `web:`. -/
theorem resolvePath_split_in_bounds_witness :
    ':' ∈ "web:".toList ∧
    (Split "web:".toList ':')[0]? = some "web".toList ∧
    (Split "web:".toList ':')[1]? = some [] ∧
    (resolvePath webHost "web:".toList []).out
      = .ret ("/var/lib/rt/abc123/rootfs".toList, none) :=
  ⟨by decide, by decide, by decide,
    (resolvePath_split_in_bounds webHost "web:".toList [] (by decide)).2 "web".toList
      "/var/lib/rt/abc123/rootfs".toList rfl (by decide) (by decide)⟩

/-! ## The end-to-end scenario -/

/-- C12: on `web:/etc/hosts` and `/tmp/hosts.bak`, with a runtime that reports
`containerd`, one container matching `web` with identifier `abc123`, and a mount
table in which the scan stops at `overlay /var/lib/rt/abc123/rootfs overlay ...`,
`Copy` runs the copy command once, on `/var/lib/rt/abc123/rootfs/etc/hosts` and
`/tmp/hosts.bak`, closes the connection and returns the result of the command. -/
theorem Copy_end_to_end (h : Host) (containers : List Container) (c : Container)
    (data options : Str) (t : List Event)
    (hclient : ∀ tr, h.getRuntimeClient tr = none)
    (hver : ∀ tr, h.Version tr = .ok "containerd".toList)
    (hlist : ∀ tr, h.ListContainers tr = .ok containers)
    (hone : getContainersList h.matchesRegex containers "web".toList = [c])
    (hid : c.Id = "abc123".toList)
    (hread : ∀ tr, h.ReadFile "/proc/mounts".toList tr = .ok data)
    (hline : rootFsLine "abc123".toList (Split data '\n')
      = some ("overlay /var/lib/rt/abc123/rootfs overlay ".toList ++ options)) :
    ∃ pre,
      (Copy h ["web:/etc/hosts".toList, "/tmp/hosts.bak".toList] t).trace
        = pre ++ [Event.exec ["cp".toList, "/var/lib/rt/abc123/rootfs/etc/hosts".toList,
            "/tmp/hosts.bak".toList], Event.closeConnection] ∧
      copyRuns pre = copyRuns t ∧
      (Copy h ["web:/etc/hosts".toList, "/tmp/hosts.bak".toList] t).out
        = .ret (h.RunCommand ["cp".toList, "/var/lib/rt/abc123/rootfs/etc/hosts".toList,
            "/tmp/hosts.bak".toList] pre) := by
  have hguard := validateRuntime_of_containerd h (t ++ [Event.getRuntimeClient]) (hver _)
  have hpiece : (Split ("overlay /var/lib/rt/abc123/rootfs overlay ".toList ++ options) ' ')[1]?
      = some "/var/lib/rt/abc123/rootfs".toList := by
    have hform : "overlay /var/lib/rt/abc123/rootfs overlay ".toList ++ options
        = "overlay".toList ++ ' ' :: ("/var/lib/rt/abc123/rootfs".toList
          ++ ' ' :: ("overlay ".toList ++ options)) := rfl
    rw [hform, Split_append_sep _ _ _ (by decide), Split_append_sep _ _ _ (by decide),
      List.getElem?_cons_succ, List.getElem?_cons_zero]
  have hfind : ∀ tr, (findRootFs h "web".toList tr).out
      = .ret ("/var/lib/rt/abc123/rootfs".toList, none) := by
    intro tr
    have hg := getContainerId_of_one h "web".toList tr containers c (hlist tr) hone
    rw [hid] at hg
    rw [findRootFs_of_id h "web".toList "abc123".toList data tr (congrArg Run.out hg) (hread _)]
    simp only [hline, hpiece]
  have hsrc : ∀ tr, (resolvePath h "web:/etc/hosts".toList tr).out
      = .ret ("/var/lib/rt/abc123/rootfs/etc/hosts".toList, none) := by
    intro tr
    have hcolon := resolvePath_colon h "web".toList "/etc/hosts".toList "/etc/hosts".toList []
      tr (by decide) (by decide)
    have hpath : "web:/etc/hosts".toList = "web".toList ++ ':' :: "/etc/hosts".toList := rfl
    rw [hpath, hcolon, hfind]
    rfl
  have hdst := fun tr => resolvePath_of_no_colon h "/tmp/hosts.bak".toList tr (by decide)
  have hcopy := copy_of_resolved h "web:/etc/hosts".toList "/tmp/hosts.bak".toList
    "/var/lib/rt/abc123/rootfs/etc/hosts".toList "/tmp/hosts.bak".toList
    (t ++ [Event.getRuntimeClient] ++ [Event.rpcVersion]) (hsrc _)
    (by rw [hdst])
  have hruns := (resolvePath_counts h "web:/etc/hosts".toList
    (t ++ [Event.getRuntimeClient] ++ [Event.rpcVersion])).2.2
  rw [Copy_two, hclient, hguard]
  dsimp only
  rw [hcopy, copyFile_eq, Split_two_operands _ _ (by decide) (by decide), hdst]
  dsimp only
  refine ⟨(resolvePath h "web:/etc/hosts".toList
        (t ++ [Event.getRuntimeClient] ++ [Event.rpcVersion])).trace
      ++ [Event.debugf "Resolving path %v".toList [.str "/tmp/hosts.bak".toList]]
      ++ [Event.debugf "Copying %s to %s\n".toList
        [.str "/var/lib/rt/abc123/rootfs/etc/hosts".toList, .str "/tmp/hosts.bak".toList]]
      ++ [Event.debugf "copy command: %v".toList
        [.str ("cp ".toList ++ "/var/lib/rt/abc123/rootfs/etc/hosts".toList ++ " ".toList
          ++ "/tmp/hosts.bak".toList)]], ?_, ?_, rfl⟩
  · simp only [List.append_assoc, List.cons_append, List.nil_append]
  · simp only [copyRuns_append, hruns, (counts_debugf _ _).2.2, counts_getRuntimeClient.2.2]
    rfl

/-- C12, on the host of the scenario. -/
theorem Copy_end_to_end_witness :
    getContainersList webHost.matchesRegex [⟨"abc123".toList, "web".toList⟩] "web".toList
      = [⟨"abc123".toList, "web".toList⟩] ∧
    rootFsLine "abc123".toList (Split webMounts '\n')
      = some ("overlay /var/lib/rt/abc123/rootfs overlay ".toList ++ "rw,relatime 0 0".toList) ∧
    ∃ pre,
      (Copy webHost ["web:/etc/hosts".toList, "/tmp/hosts.bak".toList] []).trace
        = pre ++ [Event.exec ["cp".toList, "/var/lib/rt/abc123/rootfs/etc/hosts".toList,
            "/tmp/hosts.bak".toList], Event.closeConnection] ∧
      copyRuns pre = copyRuns [] ∧
      (Copy webHost ["web:/etc/hosts".toList, "/tmp/hosts.bak".toList] []).out
        = .ret (webHost.RunCommand ["cp".toList, "/var/lib/rt/abc123/rootfs/etc/hosts".toList,
            "/tmp/hosts.bak".toList] pre) :=
  ⟨by decide, by decide,
    Copy_end_to_end webHost [⟨"abc123".toList, "web".toList⟩] ⟨"abc123".toList, "web".toList⟩
      webMounts "rw,relatime 0 0".toList [] (fun _ => rfl) (fun _ => rfl) (fun _ => rfl)
      (by decide) rfl (fun _ => rfl) (by decide)⟩

/-! ## How often the runtime and the mount table are asked -/

/-- C14 (as stated, refuted): with two container endpoints one run of `Copy`
sends two ListContainers queries and reads the mount table twice. -/
theorem Copy_two_container_endpoints_query_twice :
    listQueries (Copy webHost ["web:/a".toList, "web:/b".toList] []).trace = 2 ∧
    mountReads (Copy webHost ["web:/a".toList, "web:/b".toList] []).trace = 2 := by
  decide

/-- C14 (amended): one run of `Copy` sends at most one ListContainers query and
reads the mount table at most once for each argument that is a container
endpoint, so at most twice in all. -/
theorem Copy_queries_once_per_container_endpoint (h : Host) (args : List Str)
    (t : List Event) :
    listQueries (Copy h args t).trace
      ≤ listQueries t + args.countP (fun a => Contains a ":".toList) ∧
    mountReads (Copy h args t).trace
      ≤ mountReads t + args.countP (fun a => Contains a ":".toList) ∧
    listQueries (Copy h args t).trace ≤ listQueries t + 2 ∧
    mountReads (Copy h args t).trace ≤ mountReads t + 2 := by
  obtain ⟨c1, c2, _⟩ := Copy_counts h args t
  refine ⟨c1, c2, ?_, ?_⟩
  · by_cases hn : args.length = 2
    · have hle := List.countP_le_length (fun a => Contains a ":".toList) (l := args)
      omega
    · rw [Copy_of_length_ne h args t hn]
      exact Nat.le_add_right _ _
  · by_cases hn : args.length = 2
    · have hle := List.countP_le_length (fun a => Contains a ":".toList) (l := args)
      omega
    · rw [Copy_of_length_ne h args t hn]
      exact Nat.le_add_right _ _

/-! ## Order of the mount-table lines -/

/-- C17: when exactly one line of the mount table contains both the identifier
and `rootfs`, `findRootFs` gives the same result on every permutation of the
lines, and for a marked line `source target rest` with single spaces that
result is the target. -/
theorem findRootFs_single_marked_line_any_order (h h' : Host)
    (containerName containerId data data' line : Str) (t t' : List Event)
    (hg : (getContainerId h containerName t).out = .ret (containerId, none))
    (hr : h.ReadFile "/proc/mounts".toList (getContainerId h containerName t).trace = .ok data)
    (hg' : (getContainerId h' containerName t').out = .ret (containerId, none))
    (hr' : h'.ReadFile "/proc/mounts".toList (getContainerId h' containerName t').trace
      = .ok data')
    (hperm : (Split data' '\n').Perm (Split data '\n'))
    (hone : (Split data '\n').filter (lineQualifies containerId) = [line]) :
    (findRootFs h' containerName t').out = (findRootFs h containerName t).out ∧
    ∀ src tgt rest, line = src ++ ' ' :: (tgt ++ ' ' :: rest) → ' ' ∉ src → ' ' ∉ tgt →
      (findRootFs h containerName t).out = .ret (tgt, none) := by
  have hone' : (Split data' '\n').filter (lineQualifies containerId) = [line] :=
    List.perm_singleton.1 (hone ▸ hperm.filter (lineQualifies containerId))
  have hsel : rootFsLine containerId (Split data '\n') = some line := by
    rw [rootFsLine_eq_find]
    exact find_of_filter_singleton _ _ _ hone
  have hsel' : rootFsLine containerId (Split data' '\n') = some line := by
    rw [rootFsLine_eq_find]
    exact find_of_filter_singleton _ _ _ hone'
  constructor
  · rw [findRootFs_of_id h containerName containerId data t hg hr,
      findRootFs_of_id h' containerName containerId data' t' hg' hr']
    simp only [hsel, hsel']
  · intro src tgt rest hform hsrc htgt
    rw [findRootFs_of_id h containerName containerId data t hg hr]
    have hpiece : (Split line ' ')[1]? = some tgt := by
      rw [hform, Split_append_sep _ _ _ hsrc, Split_append_sep _ _ _ htgt,
        List.getElem?_cons_succ, List.getElem?_cons_zero]
    simp only [hsel, hpiece]

/-- C17, on a table with two lines that contain `abc123` and on the same table
with the two lines exchanged. -/
theorem findRootFs_single_marked_line_any_order_witness :
    (Split swappedMounts '\n').Perm (Split mixedMounts '\n') ∧
    (Split mixedMounts '\n').filter (lineQualifies "abc123".toList)
      = ["overlay /var/lib/rt/abc123/rootfs overlay rw 0 0".toList] ∧
    (Split mixedMounts '\n').countP (fun l => Contains l "abc123".toList) = 2 ∧
    (findRootFs swappedHost "web".toList []).out = (findRootFs mixedHost "web".toList []).out ∧
    (findRootFs mixedHost "web".toList []).out
      = .ret ("/var/lib/rt/abc123/rootfs".toList, none) :=
  ⟨List.Perm.swap _ _ _, by decide, by decide,
    (findRootFs_single_marked_line_any_order mixedHost swappedHost "web".toList
      "abc123".toList mixedMounts swappedMounts
      "overlay /var/lib/rt/abc123/rootfs overlay rw 0 0".toList [] [] (by decide) rfl
      (by decide) rfl (List.Perm.swap _ _ _) (by decide)).1,
    (findRootFs_single_marked_line_any_order mixedHost swappedHost "web".toList
      "abc123".toList mixedMounts swappedMounts
      "overlay /var/lib/rt/abc123/rootfs overlay rw 0 0".toList [] [] (by decide) rfl
      (by decide) rfl (List.Perm.swap _ _ _) (by decide)).2 "overlay".toList
      "/var/lib/rt/abc123/rootfs".toList "overlay rw 0 0".toList rfl (by decide) (by decide)⟩

/-- The copy command runs once in `copy` or not at all. -/
theorem copy_runs_cases (h : Host) (src dst : Str) (t : List Event) :
    copyRuns (copy h src dst t).trace = copyRuns t ∨
    copyRuns (copy h src dst t).trace = copyRuns t + 1 := by
  obtain ⟨_, _, a3⟩ := resolvePath_counts h src t
  obtain ⟨_, _, b3⟩ := resolvePath_counts h dst (resolvePath h src t).trace
  have c3 : ∀ s d tr, copyRuns (copyFile h s d tr).trace = copyRuns tr + 1 :=
    fun s d tr => (copyFile_counts h s d tr).2.2
  unfold copy
  dsimp only
  split
  · exact Or.inl a3
  · exact Or.inl a3
  · split
    · exact Or.inl (b3.trans a3)
    · exact Or.inl (b3.trans a3)
    · right
      simp only [c3, copyRuns_append, (counts_debugf _ _).2.2]
      omega

/-- The copy command runs in `Copy` on two arguments exactly when the client is
obtained, the guard accepts the runtime and both endpoints resolve. -/
theorem Copy_two_runs_iff (h : Host) (src dst : Str) (t : List Event) :
    (copyRuns (Copy h [src, dst] t).trace = copyRuns t + 1 ↔
      h.getRuntimeClient t = none ∧ (guardRun h t).out = .ret none ∧
        ∃ srcRes dstRes, (sourceRun h src t).out = .ret (srcRes, none) ∧
          (destinationRun h src dst t).out = .ret (dstRes, none)) ∧
    (copyRuns (Copy h [src, dst] t).trace = copyRuns t ∨
      copyRuns (Copy h [src, dst] t).trace = copyRuns t + 1) := by
  obtain ⟨_, _, v3⟩ := validateRuntime_counts h (t ++ [Event.getRuntimeClient])
  simp only [copyRuns_append, counts_getRuntimeClient.2.2, Nat.add_zero] at v3
  have hiff := copy_runs_iff h src dst (validateRuntime h (t ++ [Event.getRuntimeClient])).trace
  have hcases := copy_runs_cases h src dst
    (validateRuntime h (t ++ [Event.getRuntimeClient])).trace
  rw [v3] at hiff hcases
  rw [Copy_two]
  simp only [guardRun, sourceRun, destinationRun]
  cases hc : h.getRuntimeClient t with
  | some err =>
    dsimp only
    simp only [copyRuns_append, counts_getRuntimeClient.2.2, Nat.add_zero]
    refine ⟨⟨fun hh => by omega, fun hh => by cases hh.1⟩, Or.inl trivial⟩
  | none =>
    dsimp only
    cases hgo : (validateRuntime h (t ++ [Event.getRuntimeClient])).out with
    | panic =>
      dsimp only
      simp only [copyRuns_append, counts_closeConnection.2.2, Nat.add_zero, v3]
      refine ⟨⟨fun hh => by omega, fun hh => by cases hh.2.1⟩, Or.inl trivial⟩
    | ret v =>
      cases v with
      | some err =>
        dsimp only
        simp only [copyRuns_append, counts_closeConnection.2.2, Nat.add_zero, v3]
        refine ⟨⟨fun hh => by omega, fun hh => by cases hh.2.1⟩, Or.inl trivial⟩
      | none =>
        dsimp only
        simp only [copyRuns_append, counts_closeConnection.2.2, Nat.add_zero]
        refine ⟨⟨fun hh => ⟨trivial, trivial, hiff.1 hh⟩, fun hh => hiff.2 hh.2.2⟩, hcases⟩

/-! ## All or nothing -/

/-- The copy command runs, once, exactly when there are two arguments, the
client is obtained, the guard accepts the runtime and both endpoints resolve,
and otherwise it does not run; when the guard rejects the runtime nothing but
closing the connection follows, so there is no ListContainers query, no
mount-table read and no command; and when a step returns an error, that error,
or else the result of the command, is what `Copy` returns. -/
theorem Copy_steps (h : Host) (args : List Str)
    (t : List Event) :
    (copyRuns (Copy h args t).trace = copyRuns t + 1 ↔
      ∃ src dst, args = [src, dst] ∧ h.getRuntimeClient t = none ∧
        (guardRun h t).out = .ret none ∧
        ∃ srcRes dstRes, (sourceRun h src t).out = .ret (srcRes, none) ∧
          (destinationRun h src dst t).out = .ret (dstRes, none)) ∧
    (copyRuns (Copy h args t).trace = copyRuns t ∨
      copyRuns (Copy h args t).trace = copyRuns t + 1) ∧
    (∀ src dst err, args = [src, dst] → h.getRuntimeClient t = none →
      (guardRun h t).out = .ret (some err) →
      Copy h args t = ⟨.ret (some err), (guardRun h t).trace ++ [Event.closeConnection]⟩ ∧
      listQueries (Copy h args t).trace = listQueries t ∧
      mountReads (Copy h args t).trace = mountReads t ∧
      copyRuns (Copy h args t).trace = copyRuns t) ∧
    (∀ src dst err, args = [src, dst] → h.getRuntimeClient t = some err →
      (Copy h args t).out = .ret (some err)) ∧
    (∀ src dst p err, args = [src, dst] → h.getRuntimeClient t = none →
      (guardRun h t).out = .ret none → (sourceRun h src t).out = .ret (p, some err) →
      (Copy h args t).out = .ret (some err)) ∧
    (∀ src dst srcRes p err, args = [src, dst] → h.getRuntimeClient t = none →
      (guardRun h t).out = .ret none → (sourceRun h src t).out = .ret (srcRes, none) →
      (destinationRun h src dst t).out = .ret (p, some err) →
      (Copy h args t).out = .ret (some err)) ∧
    (∀ src dst srcRes dstRes, args = [src, dst] → h.getRuntimeClient t = none →
      (guardRun h t).out = .ret none → (sourceRun h src t).out = .ret (srcRes, none) →
      (destinationRun h src dst t).out = .ret (dstRes, none) →
      ∃ tr, (Copy h args t).out
        = .ret (h.RunCommand ("cp".toList :: Split (srcRes ++ ' ' :: dstRes) ' ') tr)) := by
  refine ⟨?_, ?_, ?_, ?_, ?_, ?_, ?_⟩
  · by_cases hn : args.length = 2
    · obtain ⟨src, dst, rfl⟩ := List.length_eq_two.1 hn
      rw [(Copy_two_runs_iff h src dst t).1]
      constructor
      · intro hh
        exact ⟨src, dst, rfl, hh⟩
      · rintro ⟨src', dst', heq, hh⟩
        simp only [List.cons.injEq, and_true] at heq
        rw [heq.1, heq.2]
        exact hh
    · rw [Copy_of_length_ne h args t hn]
      constructor
      · intro hh
        dsimp only at hh
        omega
      · rintro ⟨src, dst, heq, _⟩
        rw [heq] at hn
        exact absurd rfl hn
  · by_cases hn : args.length = 2
    · obtain ⟨src, dst, rfl⟩ := List.length_eq_two.1 hn
      exact (Copy_two_runs_iff h src dst t).2
    · rw [Copy_of_length_ne h args t hn]
      exact Or.inl rfl
  · intro src dst err hargs hclient hguard
    subst hargs
    obtain ⟨v1, v2, v3⟩ := validateRuntime_counts h (t ++ [Event.getRuntimeClient])
    simp only [listQueries_append, mountReads_append, copyRuns_append,
      counts_getRuntimeClient.1, counts_getRuntimeClient.2.1, counts_getRuntimeClient.2.2,
      Nat.add_zero] at v1 v2 v3
    simp only [guardRun] at hguard ⊢
    rw [Copy_two, hclient]
    dsimp only
    rw [hguard]
    dsimp only
    simp only [listQueries_append, mountReads_append, copyRuns_append,
      counts_closeConnection.1, counts_closeConnection.2.1, counts_closeConnection.2.2,
      Nat.add_zero, v1, v2, v3, and_self]
  · intro src dst err hargs hclient
    subst hargs
    rw [Copy_two, hclient]
  · intro src dst p err hargs hclient hguard hsrc
    subst hargs
    simp only [guardRun, sourceRun] at hguard hsrc
    rw [Copy_two, hclient]
    dsimp only
    rw [hguard]
    dsimp only
    rw [copy_of_source_error h src dst p err _ hsrc]
  · intro src dst srcRes p err hargs hclient hguard hsrc hdst
    subst hargs
    simp only [guardRun, sourceRun, destinationRun] at hguard hsrc hdst
    rw [Copy_two, hclient]
    dsimp only
    rw [hguard]
    dsimp only
    rw [copy_of_destination_error h src dst srcRes p err _ hsrc hdst]
  · intro src dst srcRes dstRes hargs hclient hguard hsrc hdst
    subst hargs
    simp only [guardRun, sourceRun, destinationRun] at hguard hsrc hdst
    rw [Copy_two, hclient]
    dsimp only
    rw [hguard]
    dsimp only
    rw [copy_of_resolved h src dst srcRes dstRes _ hsrc hdst, copyFile_eq]
    exact ⟨_, rfl⟩

/-- On a runtime that reports `cri-o` the run is the client, the Version query
and the close of the connection. -/
theorem Copy_runs_command_iff_all_steps_succeed_on_crio :
    (guardRun (fixedHost [] [] "cri-o".toList) []).out
      = .ret (some "copy not supported for runtime \x27cri-o\x27".toList) ∧
    Copy (fixedHost [] [] "cri-o".toList) ["web:/etc/hosts".toList, "/tmp/hosts.bak".toList] []
      = ⟨.ret (some "copy not supported for runtime \x27cri-o\x27".toList),
        [Event.getRuntimeClient, Event.rpcVersion, Event.closeConnection]⟩ :=
  ⟨by decide,
    ((Copy_steps (fixedHost [] [] "cri-o".toList)
      ["web:/etc/hosts".toList, "/tmp/hosts.bak".toList] []).2.2.1
      "web:/etc/hosts".toList "/tmp/hosts.bak".toList
      "copy not supported for runtime \x27cri-o\x27".toList rfl rfl (by decide)).1⟩

/-! ## Lines in the mount-table format -/

/-- On a line without a tab whose space-separated pieces are not empty, the
whitespace fields are the space-separated pieces, the first one after the
characters already read. -/
theorem whitespaceFieldsFrom_eq (s : Str) :
    ∀ (cur p : Str) (ps : List Str), Split s ' ' = p :: ps → '\t' ∉ s →
      cur.reverse ++ p ≠ [] → (∀ f ∈ ps, f ≠ []) →
      whitespaceFieldsFrom s cur = (cur.reverse ++ p) :: ps := by
  induction s with
  | nil =>
    intro cur p ps hs _ hne _
    have hp : p = [] ∧ ps = [] := by
      have hs' : [([] : Str)] = p :: ps := hs
      simp only [List.cons.injEq] at hs'
      exact ⟨hs'.1.symm, hs'.2.symm⟩
    obtain ⟨rfl, rfl⟩ := hp
    have hcur : cur ≠ [] := by
      intro hc
      apply hne
      simp [hc]
    simp [whitespaceFieldsFrom, hcur]
  | cons c cs ih =>
    intro cur p ps hs htab hne hps
    have htab' : '\t' ∉ cs := fun hm => htab (List.mem_cons_of_mem _ hm)
    obtain ⟨q, qs, hq⟩ := Split_eq_cons cs ' '
    by_cases hc : c = ' '
    · subst hc
      have hs' : [] :: (q :: qs) = p :: ps := by
        rw [← hs]
        simp [Split, hq]
      simp only [List.cons.injEq] at hs'
      obtain ⟨hp, hps'⟩ := hs'
      subst hp
      subst hps'
      have hcur : cur ≠ [] := by
        intro hc
        apply hne
        simp [hc]
      have hqne : q ≠ [] := hps q (by simp)
      have hrest := ih [] q qs hq htab' (by simpa using hqne)
        (fun f hf => hps f (List.mem_cons_of_mem _ hf))
      simp only [List.reverse_nil, List.nil_append] at hrest
      simp [whitespaceFieldsFrom, hcur, hrest]
    · have hct : c ≠ '\t' := fun e => htab (by simp [e])
      have hs' : (c :: q) :: qs = p :: ps := by
        rw [← hs]
        simp [Split, hc, hq]
      simp only [List.cons.injEq] at hs'
      obtain ⟨hp, hps'⟩ := hs'
      subst hp
      subst hps'
      have hrest := ih (c :: cur) q qs hq htab' (by simp) hps
      simp only [whitespaceFieldsFrom, hc, hct, or_self, if_false, hrest]
      simp

/-- On a line in the mount-table format the whitespace fields are the
space-separated pieces. -/
theorem whitespaceFields_of_mount_line (line : Str) (hfmt : IsMountLine line) :
    whitespaceFields line = Split line ' ' := by
  obtain ⟨_, hall, htab⟩ := hfmt
  obtain ⟨p, ps, hs⟩ := Split_eq_cons line ' '
  have hp : p ≠ [] := hall p (by simp [hs])
  have hps : ∀ f ∈ ps, f ≠ [] := fun f hf => hall f (by simp [hs, hf])
  have hw := whitespaceFieldsFrom_eq line [] p ps hs htab (by simpa using hp) hps
  simp only [List.reverse_nil, List.nil_append] at hw
  rw [whitespaceFields, hw, hs]

/-- A line in the mount-table format has a second space-separated piece. -/
theorem second_piece_of_mount_line (line : Str) (hfmt : IsMountLine line) :
    ∃ target, (Split line ' ')[1]? = some target := by
  obtain ⟨hlen, _, _⟩ := hfmt
  cases hp : (Split line ' ')[1]? with
  | some target => exact ⟨target, rfl⟩
  | none =>
    rw [List.getElem?_eq_none_iff] at hp
    omega

/-- A line that contains `rootfs` is not empty. -/
theorem ne_nil_of_lineQualifies (containerId line : Str)
    (hq : lineQualifies containerId line = true) : line ≠ [] := by
  intro hl
  subst hl
  have h2 := ((lineQualifies_iff _ _).1 hq).2
  exact absurd h2 (by decide)

/-- The line at which the scan stops is a line of the table and qualifies. -/
theorem rootFsLine_mem (containerId line : Str) (mounts : List Str)
    (hsel : rootFsLine containerId mounts = some line) :
    line ∈ mounts ∧ lineQualifies containerId line = true := by
  rw [rootFsLine_eq_find] at hsel
  exact ⟨List.mem_of_find?_eq_some hsel, List.find?_some hsel⟩

theorem eq_six_of_length (l : List Str) (hl : l.length = 6) :
    ∃ a b c d e f, l = [a, b, c, d, e, f] := by
  rcases l with _ | ⟨a, _ | ⟨b, _ | ⟨c, _ | ⟨d, _ | ⟨e, _ | ⟨f, _ | ⟨g, l⟩⟩⟩⟩⟩⟩⟩
  all_goals simp at hl
  exact ⟨a, b, c, d, e, f, rfl⟩

/-! ## The target field -/

/-- C4: when the line the scan selects has the mount-table format
`source target type options dump pass`, its whitespace-separated fields are
these six and the path `findRootFs` returns is the second of them, the target
field. -/
theorem findRootFs_returns_target_field (h : Host)
    (containerName containerId data line : Str) (t : List Event)
    (hg : (getContainerId h containerName t).out = .ret (containerId, none))
    (hr : h.ReadFile "/proc/mounts".toList (getContainerId h containerName t).trace = .ok data)
    (hline : rootFsLine containerId (Split data '\n') = some line)
    (hfmt : IsMountLine line) :
    ∃ source target fstype options dump pass,
      whitespaceFields line = [source, target, fstype, options, dump, pass] ∧
      (whitespaceFields line)[1]? = some target ∧
      (findRootFs h containerName t).out = .ret (target, none) := by
  have hw := whitespaceFields_of_mount_line line hfmt
  obtain ⟨a, b, c, d, e, f, hs⟩ := eq_six_of_length _ hfmt.1
  refine ⟨a, b, c, d, e, f, by rw [hw, hs], ?_, ?_⟩
  · rw [hw, hs, List.getElem?_cons_succ, List.getElem?_cons_zero]
  · have hpiece : (Split line ' ')[1]? = some b := by
      rw [hs, List.getElem?_cons_succ, List.getElem?_cons_zero]
    rw [findRootFs_of_id h containerName containerId data t hg hr]
    simp only [hline, hpiece]

/-- C4, on the end-to-end table. -/
theorem findRootFs_returns_target_field_witness :
    (getContainerId webHost "web".toList []).out = .ret ("abc123".toList, none) ∧
    webHost.ReadFile "/proc/mounts".toList (getContainerId webHost "web".toList []).trace
      = .ok webMounts ∧
    rootFsLine "abc123".toList (Split webMounts '\n')
      = some "overlay /var/lib/rt/abc123/rootfs overlay rw,relatime 0 0".toList ∧
    IsMountLine "overlay /var/lib/rt/abc123/rootfs overlay rw,relatime 0 0".toList ∧
    (whitespaceFields "overlay /var/lib/rt/abc123/rootfs overlay rw,relatime 0 0".toList)[1]?
      = some "/var/lib/rt/abc123/rootfs".toList ∧
    ∃ source target fstype options dump pass,
      whitespaceFields "overlay /var/lib/rt/abc123/rootfs overlay rw,relatime 0 0".toList
        = [source, target, fstype, options, dump, pass] ∧
      (whitespaceFields "overlay /var/lib/rt/abc123/rootfs overlay rw,relatime 0 0".toList)[1]?
        = some target ∧
      (findRootFs webHost "web".toList []).out = .ret (target, none) :=
  ⟨by decide, rfl, by decide, by decide, by decide,
    findRootFs_returns_target_field webHost "web".toList "abc123".toList webMounts
      "overlay /var/lib/rt/abc123/rootfs overlay rw,relatime 0 0".toList []
      (by decide) rfl (by decide) (by decide)⟩

/-! ## The index access of `findRootFs` -/

/-- C19: when the text read from `/proc/mounts` has the mount-table format,
every line that contains both an identifier, the empty one included, and
`rootfs` has at least two space-separated pieces, and `findRootFs` panics only
where `getContainerId` does, never on the index 1. -/
theorem findRootFs_index_in_bounds (h : Host) (containerName : Str) (t : List Event)
    (hfmt : ∀ data, h.ReadFile "/proc/mounts".toList (getContainerId h containerName t).trace
      = .ok data → IsMountTable data) :
    (∀ data containerId line,
      h.ReadFile "/proc/mounts".toList (getContainerId h containerName t).trace = .ok data →
      line ∈ Split data '\n' → lineQualifies containerId line = true →
      2 ≤ (Split line ' ').length) ∧
    ((findRootFs h containerName t).out = .panic →
      (getContainerId h containerName t).out = .panic) := by
  have hline : ∀ data containerId line,
      h.ReadFile "/proc/mounts".toList (getContainerId h containerName t).trace = .ok data →
      line ∈ Split data '\n' → lineQualifies containerId line = true → IsMountLine line := by
    intro data containerId line hr hmem hq
    rcases hfmt data hr line hmem with hnil | hml
    · exact absurd hnil (ne_nil_of_lineQualifies containerId line hq)
    · exact hml
  constructor
  · intro data containerId line hr hmem hq
    have hlen := (hline data containerId line hr hmem hq).1
    omega
  · intro hpanic
    cases hgo : (getContainerId h containerName t).out with
    | panic => rfl
    | ret v =>
      obtain ⟨containerId, e⟩ := v
      cases e with
      | some err =>
        simp only [findRootFs, hgo] at hpanic
        cases hpanic
      | none =>
        cases hr : h.ReadFile "/proc/mounts".toList (getContainerId h containerName t).trace with
        | error err =>
          simp only [findRootFs, hgo, hr] at hpanic
          cases hpanic
        | ok data =>
          rw [findRootFs_of_id h containerName containerId data t hgo hr] at hpanic
          cases hsel : rootFsLine containerId (Split data '\n') with
          | none =>
            simp only [hsel] at hpanic
            cases hpanic
          | some line =>
            obtain ⟨hmem, hq⟩ := rootFsLine_mem containerId line _ hsel
            obtain ⟨target, htarget⟩ :=
              second_piece_of_mount_line line (hline data containerId line hr hmem hq)
            simp only [hsel, htarget] at hpanic
            cases hpanic

/-- C19, on the end-to-end table and, for the pieces, the empty identifier. -/
theorem findRootFs_index_in_bounds_witness :
    (∀ data, webHost.ReadFile "/proc/mounts".toList
      (getContainerId webHost "web".toList []).trace = .ok data → IsMountTable data) ∧
    (∀ line ∈ Split webMounts '\n', lineQualifies [] line = true →
      2 ≤ (Split line ' ').length) ∧
    ((findRootFs webHost "web".toList []).out = .panic →
      (getContainerId webHost "web".toList []).out = .panic) :=
  ⟨fun data hd => by cases hd; decide,
    fun line hmem hq =>
      (findRootFs_index_in_bounds webHost "web".toList []
        (fun data hd => by cases hd; decide)).1 webMounts [] line rfl hmem hq,
    (findRootFs_index_in_bounds webHost "web".toList []
      (fun data hd => by cases hd; decide)).2⟩

/-! ## A name that matches no container -/

/-- The run of `resolvePath` on `name:fragment` when no listed container
matches `name` ends in the panic of `getContainerId`. -/
theorem resolvePath_of_no_match (h : Host) (containerName fragment : Str) (t : List Event)
    (containers : List Container) (hcolon : ':' ∉ containerName)
    (hl : h.ListContainers (t ++ [Event.debugf "Resolving path %v".toList
      [.str (containerName ++ ':' :: fragment)]]) = .ok containers)
    (hno : ∀ c ∈ containers, h.matchesRegex containerName c.Name = false) :
    (resolvePath h (containerName ++ ':' :: fragment) t).out = .panic := by
  have hf := findRootFs_of_panic h containerName _
    (getContainerId_of_nil h containerName _ containers hl
      (getContainersList_eq_nil _ _ _ hno))
  obtain ⟨p, ps, hs⟩ := Split_eq_cons fragment ':'
  rw [resolvePath_colon h containerName fragment p ps t hcolon hs, hf]

/-- C16: when the source is `name:fragment` and no listed container matches
`name`, resolving the source fails without an error value: `copy` panics and
returns no error; its run is the run of the source resolution, so nothing is
done for the destination and no command is run. -/
theorem copy_source_without_match_panics (h : Host) (containerName fragment dst : Str)
    (t : List Event) (containers : List Container) (hcolon : ':' ∉ containerName)
    (hl : h.ListContainers (t ++ [Event.debugf "Resolving path %v".toList
      [.str (containerName ++ ':' :: fragment)]]) = .ok containers)
    (hno : ∀ c ∈ containers, h.matchesRegex containerName c.Name = false) :
    (resolvePath h (containerName ++ ':' :: fragment) t).out = .panic ∧
    copy h (containerName ++ ':' :: fragment) dst t
      = ⟨.panic, (resolvePath h (containerName ++ ':' :: fragment) t).trace⟩ ∧
    copyRuns (copy h (containerName ++ ':' :: fragment) dst t).trace = copyRuns t := by
  have hp := resolvePath_of_no_match h containerName fragment t containers hcolon hl hno
  have hc : copy h (containerName ++ ':' :: fragment) dst t
      = ⟨.panic, (resolvePath h (containerName ++ ':' :: fragment) t).trace⟩ := by
    simp only [copy, hp]
  refine ⟨hp, hc, ?_⟩
  rw [hc]
  exact (resolvePath_counts h _ t).2.2

/-- C16, on the source `web:/etc/hosts` and a runtime that lists no container. -/
theorem copy_source_without_match_panics_witness :
    (resolvePath (fixedHost [] webMounts "containerd".toList) "web:/etc/hosts".toList []).out
      = .panic ∧
    copy (fixedHost [] webMounts "containerd".toList) "web:/etc/hosts".toList
        "/tmp/hosts.bak".toList []
      = ⟨.panic, (resolvePath (fixedHost [] webMounts "containerd".toList)
          "web:/etc/hosts".toList []).trace⟩ ∧
    copyRuns (copy (fixedHost [] webMounts "containerd".toList) "web:/etc/hosts".toList
      "/tmp/hosts.bak".toList []).trace = copyRuns [] :=
  copy_source_without_match_panics (fixedHost [] webMounts "containerd".toList) "web".toList
    "/etc/hosts".toList "/tmp/hosts.bak".toList [] [] (by decide) rfl (by simp)

/-- C15: with two arguments, the client obtained and the runtime accepted, when
the source is `name:fragment` and no listed container matches `name`, the
failure of the resolution has no error value: `Copy` panics and returns no
error, the command is not run and the connection is closed. -/
theorem Copy_no_match_returns_no_error (h : Host) (containerName fragment dst : Str)
    (t : List Event) (containers : List Container) (hcolon : ':' ∉ containerName)
    (hclient : h.getRuntimeClient t = none) (hguard : (guardRun h t).out = .ret none)
    (hl : h.ListContainers ((guardRun h t).trace ++ [Event.debugf "Resolving path %v".toList
      [.str (containerName ++ ':' :: fragment)]]) = .ok containers)
    (hno : ∀ c ∈ containers, h.matchesRegex containerName c.Name = false) :
    (sourceRun h (containerName ++ ':' :: fragment) t).out = .panic ∧
    Copy h [containerName ++ ':' :: fragment, dst] t
      = ⟨.panic, (sourceRun h (containerName ++ ':' :: fragment) t).trace
          ++ [Event.closeConnection]⟩ ∧
    copyRuns (Copy h [containerName ++ ':' :: fragment, dst] t).trace = copyRuns t := by
  have hp := resolvePath_of_no_match h containerName fragment (guardRun h t).trace containers
    hcolon hl hno
  have hc : copy h (containerName ++ ':' :: fragment) dst (guardRun h t).trace
      = ⟨.panic, (resolvePath h (containerName ++ ':' :: fragment) (guardRun h t).trace).trace⟩ := by
    simp only [copy, hp]
  have hC : Copy h [containerName ++ ':' :: fragment, dst] t
      = ⟨.panic, (sourceRun h (containerName ++ ':' :: fragment) t).trace
          ++ [Event.closeConnection]⟩ := by
    simp only [guardRun] at hguard hc
    rw [Copy_two, hclient]
    dsimp only
    rw [hguard]
    dsimp only
    rw [hc]
    rfl
  refine ⟨hp, hC, ?_⟩
  rw [hC]
  obtain ⟨_, _, v3⟩ := validateRuntime_counts h (t ++ [Event.getRuntimeClient])
  have r3 := (resolvePath_counts h (containerName ++ ':' :: fragment) (guardRun h t).trace).2.2
  simp only [guardRun, copyRuns_append, counts_getRuntimeClient.2.2, Nat.add_zero] at v3 r3
  simp only [sourceRun, guardRun, copyRuns_append, counts_closeConnection.2.2, Nat.add_zero,
    r3, v3]

/-- C15, on `web:/etc/hosts` and a `containerd` runtime that lists no container. -/
theorem Copy_no_match_returns_no_error_witness :
    (fixedHost [] webMounts "containerd".toList).getRuntimeClient [] = none ∧
    (guardRun (fixedHost [] webMounts "containerd".toList) []).out = .ret none ∧
    (Copy (fixedHost [] webMounts "containerd".toList)
      ["web:/etc/hosts".toList, "/tmp/hosts.bak".toList] []).out = .panic ∧
    copyRuns (Copy (fixedHost [] webMounts "containerd".toList)
      ["web:/etc/hosts".toList, "/tmp/hosts.bak".toList] []).trace = copyRuns [] :=
  ⟨rfl, by decide,
    congrArg Run.out (Copy_no_match_returns_no_error
      (fixedHost [] webMounts "containerd".toList) "web".toList "/etc/hosts".toList
      "/tmp/hosts.bak".toList [] [] (by decide) rfl (by decide) rfl (by simp)).2.1,
    (Copy_no_match_returns_no_error
      (fixedHost [] webMounts "containerd".toList) "web".toList "/etc/hosts".toList
      "/tmp/hosts.bak".toList [] [] (by decide) rfl (by decide) rfl (by simp)).2.2⟩

end Crictl
